import Mathlib

/-!
# Verification of the GeminiBot session-state and resource-lifecycle core

Shallow embedding of the bot sources (`database.py`, `main.py`):

* a JSON value type with a serializer modelling `json.dumps` (default
  separators `", "` / `": "`, `ensure_ascii=True`) and a parser modelling
  `json.loads` on the canonical texts `json.dumps` produces (integer
  number literals; float literals are not modelled),
* the SQLite-backed history store (`history` table rows with autoincrement
  ids, `user_settings` table, `add_message_to_history`, `get_history`,
  `get_history_limit`, `set_history_limit`),
* the flood-protection cooldown map (`user_last_request`, `COOLDOWNS`,
  `is_user_on_cooldown`, `update_user_timestamp`),
* the message / fact / voice / video-note handlers with their
  upload-poll-cleanup flow.

`SELECT ... ORDER BY timestamp DESC LIMIT ?` is modelled by a stable
(scan-order preserving) sort on the row list: SQLite leaves the relative
order of rows with equal `ORDER BY` keys unspecified, and its in-memory
sorter preserves scan order for equal keys, so the stable sort is the
deterministic refinement of the query actually executed.  Timestamps are
supplied explicitly (`CURRENT_TIMESTAMP` has coarse, second-level
granularity, so distinct inserts may share a timestamp).  External network
calls (Telegram download, `genai.upload_file`, `genai.get_file`, the
inference call) are oracles returning `Except`; the unbounded polling
`while` loop is modelled with explicit fuel, `none` marking divergence.
-/

/-! ## JSON values (the payload of the `parts` column) -/

mutual

inductive Json where
  | null : Json
  | bool : Bool → Json
  | num : Int → Json
  | str : List Char → Json
  | arr : JsonList → Json
  | obj : JsonObj → Json
  deriving DecidableEq

inductive JsonList where
  | nil : JsonList
  | cons : Json → JsonList → JsonList
  deriving DecidableEq

inductive JsonObj where
  | nil : JsonObj
  | cons : List Char → Json → JsonObj → JsonObj
  deriving DecidableEq

end

/-- The double-quote character. -/
def quoteC : Char := Char.ofNat 34

/-- The backslash character. -/
def bslashC : Char := Char.ofNat 92

/-- The opening-brace character. -/
def lbraceC : Char := Char.ofNat 123

/-- The closing-brace character. -/
def rbraceC : Char := Char.ofNat 125

/-- Hexadecimal digit characters, lowercase (as `json.dumps` emits). -/
def hexDig (k : Nat) : Char :=
  Char.ofNat (if k < 10 then 48 + k else 87 + k)

/-- Four-digit lowercase hex rendering of `n < 0x10000`, as in `\uXXXX`. -/
def hex4 (n : Nat) : List Char :=
  [hexDig (n / 4096 % 16), hexDig (n / 256 % 16), hexDig (n / 16 % 16), hexDig (n % 16)]

/-- How `json.dumps` (with `ensure_ascii=True`) renders one character of a
string: printable ASCII except quote and backslash is literal, the short
escapes cover the usual control characters, everything else becomes
`\uXXXX`, with astral characters as a surrogate pair. -/
def encChar (c : Char) : List Char :=
  if c = quoteC then [bslashC, quoteC]
  else if c = bslashC then [bslashC, bslashC]
  else if c = Char.ofNat 8 then [bslashC, 'b']
  else if c = Char.ofNat 9 then [bslashC, 't']
  else if c = Char.ofNat 10 then [bslashC, 'n']
  else if c = Char.ofNat 12 then [bslashC, 'f']
  else if c = Char.ofNat 13 then [bslashC, 'r']
  else if 32 ≤ c.toNat ∧ c.toNat ≤ 126 then [c]
  else if c.toNat < 65536 then bslashC :: 'u' :: hex4 c.toNat
  else
    let v := c.toNat - 65536
    bslashC :: 'u' :: hex4 (55296 + v / 1024) ++ bslashC :: 'u' :: hex4 (56320 + v % 1024)

/-- String-body serialization (without the enclosing quotes). -/
def encStr : List Char → List Char
  | [] => []
  | c :: s => encChar c ++ encStr s

/-- Decimal digits of a natural number, most significant first. -/
def encNatAux (n : Nat) (acc : List Char) : List Char :=
  if n < 10 then hexDig n :: acc
  else encNatAux (n / 10) (hexDig (n % 10) :: acc)
  termination_by n
  decreasing_by exact Nat.div_lt_self (by omega) (by omega)

/-- Decimal rendering of a natural number. -/
def encNat (n : Nat) : List Char := encNatAux n []

/-- Decimal rendering of an integer (how `json.dumps` prints Python ints). -/
def encInt (i : Int) : List Char :=
  if i < 0 then '-' :: encNat (-i).toNat else encNat i.toNat

mutual

/-- `json.dumps` with its default separators `", "` and `": "`. -/
def encVal : Json → List Char
  | .null => ['n', 'u', 'l', 'l']
  | .bool true => 't' :: 'r' :: 'u' :: 'e' :: []
  | .bool false => ['f', 'a', 'l', 's', 'e']
  | .num i => encInt i
  | .str s => quoteC :: encStr s ++ [quoteC]
  | .arr .nil => ['[', ']']
  | .arr (.cons h t) => '[' :: encVal h ++ encItemsRest t ++ [']']
  | .obj .nil => [lbraceC, rbraceC]
  | .obj (.cons k v t) =>
      lbraceC :: quoteC :: encStr k ++ [quoteC, ':', ' '] ++ encVal v
        ++ encFieldsRest t ++ [rbraceC]

/-- Second and later array items, each preceded by `", "`. -/
def encItemsRest : JsonList → List Char
  | .nil => []
  | .cons h t => ',' :: ' ' :: encVal h ++ encItemsRest t

/-- Second and later object fields, each preceded by `", "`. -/
def encFieldsRest : JsonObj → List Char
  | .nil => []
  | .cons k v t =>
      ',' :: ' ' :: quoteC :: encStr k ++ [quoteC, ':', ' '] ++ encVal v ++ encFieldsRest t

end

/-- Value of a hex digit character (both cases accepted, as `json.loads`). -/
def hexVal (c : Char) : Option Nat :=
  if 48 ≤ c.toNat ∧ c.toNat ≤ 57 then some (c.toNat - 48)
  else if 97 ≤ c.toNat ∧ c.toNat ≤ 102 then some (c.toNat - 87)
  else if 65 ≤ c.toNat ∧ c.toNat ≤ 70 then some (c.toNat - 55)
  else none

/-- Value of four hex digit characters. -/
def hexVal4 (a b c d : Char) : Option Nat :=
  match hexVal a, hexVal b, hexVal c, hexVal d with
  | some x, some y, some z, some w => some (4096 * x + 256 * y + 16 * z + w)
  | _, _, _, _ => none

mutual

/-- JSON string-body parser: consumes characters up to and including the
closing quote, undoing the escapes `encChar` produces (lone surrogates and
raw control characters are rejected, as in `json.loads`).  Fuel makes the
recursion structural; one unit per character consumed is always enough,
and `loads` supplies fuel exceeding the input length. -/
def parseStr : Nat → List Char → Option (List Char × List Char)
  | 0, _ => none
  | _ + 1, [] => none
  | f + 1, c :: rest =>
    if c = quoteC then some ([], rest)
    else if c = bslashC then parseEsc f rest
    else if c.toNat < 32 then none
    else (parseStr f rest).map fun p => (c :: p.1, p.2)

/-- The character after a backslash: a short escape or a `\u` sequence. -/
def parseEsc : Nat → List Char → Option (List Char × List Char)
  | 0, _ => none
  | _ + 1, [] => none
  | f + 1, e :: r =>
    if e = quoteC then (parseStr f r).map fun p => (quoteC :: p.1, p.2)
    else if e = bslashC then (parseStr f r).map fun p => (bslashC :: p.1, p.2)
    else if e = '/' then (parseStr f r).map fun p => ('/' :: p.1, p.2)
    else if e = 'b' then (parseStr f r).map fun p => (Char.ofNat 8 :: p.1, p.2)
    else if e = 't' then (parseStr f r).map fun p => (Char.ofNat 9 :: p.1, p.2)
    else if e = 'n' then (parseStr f r).map fun p => (Char.ofNat 10 :: p.1, p.2)
    else if e = 'f' then (parseStr f r).map fun p => (Char.ofNat 12 :: p.1, p.2)
    else if e = 'r' then (parseStr f r).map fun p => (Char.ofNat 13 :: p.1, p.2)
    else if e = 'u' then parseU f r
    else none

/-- Four hex digits after `\u`; a high surrogate must start a pair, a lone
low surrogate is rejected. -/
def parseU : Nat → List Char → Option (List Char × List Char)
  | 0, _ => none
  | f + 1, a :: b :: c :: d :: r2 =>
    (match hexVal4 a b c d with
    | none => none
    | some n =>
      if 55296 ≤ n ∧ n < 56320 then parsePair f n r2
      else if 56320 ≤ n ∧ n < 57344 then none
      else (parseStr f r2).map fun p => (Char.ofNat n :: p.1, p.2))
  | _ + 1, _ => none

/-- The low-surrogate half `\uXXXX` following a high surrogate `n`. -/
def parsePair : Nat → Nat → List Char → Option (List Char × List Char)
  | 0, _, _ => none
  | f + 1, n, b1 :: u1 :: a2 :: b2 :: c2 :: d2 :: r3 =>
    (if b1 = bslashC ∧ u1 = 'u' then
      match hexVal4 a2 b2 c2 d2 with
      | none => none
      | some m =>
        if 56320 ≤ m ∧ m < 57344 then
          (parseStr f r3).map fun p =>
            (Char.ofNat (65536 + (n - 55296) * 1024 + (m - 56320)) :: p.1, p.2)
        else none
    else none)
  | _ + 1, _, _ => none

end

/-- Consume a run of decimal digits, accumulating their value. -/
def takeDigits : List Char → Nat → Nat × List Char
  | [], acc => (acc, [])
  | c :: rest, acc =>
    if c.isDigit then takeDigits rest (acc * 10 + (c.toNat - 48))
    else (acc, c :: rest)

/-- True when the list does not start with a decimal digit (after a number
literal the canonical encodings continue with a separator or a bracket). -/
def noDigit : List Char → Bool
  | [] => true
  | c :: _ => !c.isDigit

/-- Value accumulated by `takeDigits` over a pure digit string. -/
def digitsVal : List Char → Nat → Nat
  | [], acc => acc
  | c :: r, acc => digitsVal r (acc * 10 + (c.toNat - 48))

/-- Integer number literal parser (`-?[0-9]+`). -/
def parseNum : List Char → Option (Int × List Char)
  | [] => none
  | c :: rest =>
    if c = '-' then
      match rest with
      | d :: r =>
        if d.isDigit then
          let p := takeDigits r (d.toNat - 48)
          some (-(p.1 : Int), p.2)
        else none
      | [] => none
    else if c.isDigit then
      let p := takeDigits rest (c.toNat - 48)
      some ((p.1 : Int), p.2)
    else none

mutual

/-- JSON value parser over the canonical texts `encVal` emits.  The fuel
argument bounds the nesting of composite values; `loads` supplies enough
fuel for any input of the given length. -/
def parseVal : Nat → List Char → Option (Json × List Char)
  | 0, _ => none
  | _ + 1, [] => none
  | fuel + 1, c :: rest =>
    if c = quoteC then (parseStr fuel rest).map fun p => (Json.str p.1, p.2)
    else if c = '[' then
      match rest with
      | c2 :: r2 =>
        if c2 = ']' then some (Json.arr .nil, r2)
        else (parseItems fuel rest).map fun p => (Json.arr p.1, p.2)
      | [] => none
    else if c = lbraceC then
      match rest with
      | c2 :: r2 =>
        if c2 = rbraceC then some (Json.obj .nil, r2)
        else (parseFields fuel rest).map fun p => (Json.obj p.1, p.2)
      | [] => none
    else if c = 'n' then
      match rest with
      | 'u' :: 'l' :: 'l' :: r => some (Json.null, r)
      | _ => none
    else if c = 't' then
      match rest with
      | 'r' :: 'u' :: 'e' :: r => some (Json.bool true, r)
      | _ => none
    else if c = 'f' then
      match rest with
      | 'a' :: 'l' :: 's' :: 'e' :: r => some (Json.bool false, r)
      | _ => none
    else (parseNum (c :: rest)).map fun p => (Json.num p.1, p.2)

/-- One or more array items separated by `", "`, with the closing `]`. -/
def parseItems : Nat → List Char → Option (JsonList × List Char)
  | 0, _ => none
  | fuel + 1, input =>
    match parseVal fuel input with
    | none => none
    | some (v, r) =>
      match r with
      | [] => none
      | c :: r2 =>
        if c = ',' then
          match r2 with
          | [] => none
          | c2 :: r3 =>
            if c2 = ' ' then (parseItems fuel r3).map fun p => (JsonList.cons v p.1, p.2)
            else none
        else if c = ']' then some (JsonList.cons v .nil, r2)
        else none

/-- One or more object fields separated by `", "`, with the closing brace. -/
def parseFields : Nat → List Char → Option (JsonObj × List Char)
  | 0, _ => none
  | fuel + 1, input =>
    match input with
    | [] => none
    | c :: rest =>
      if c = quoteC then
        match parseStr fuel rest with
        | none => none
        | some (k, r1) =>
          match r1 with
          | ':' :: ' ' :: r2 =>
            match parseVal fuel r2 with
            | none => none
            | some (v, r3) =>
              match r3 with
              | [] => none
              | c4 :: r4 =>
                if c4 = ',' then
                  match r4 with
                  | [] => none
                  | c5 :: r5 =>
                    if c5 = ' ' then
                      (parseFields fuel r5).map fun p => (JsonObj.cons k v p.1, p.2)
                    else none
                else if c4 = rbraceC then some (JsonObj.cons k v .nil, r4)
                else none
          | _ => none
      else none

end

/-- `json.loads` on the canonical texts produced by `encVal`: parse one
value and require the input to be exhausted. -/
def loads (s : List Char) : Option Json :=
  match parseVal (s.length + 1) s with
  | some (v, []) => some v
  | _ => none


/-! ## History store (`database.py`) -/

/-- The default history limit (`DEFAULT_HISTORY_LIMIT = 12`). -/
def DEFAULT_HISTORY_LIMIT : Int := 12

/-- One row of the `history` table: autoincrement `id`, `user_id`, `role`,
the JSON-serialized `parts` text, and the insert `timestamp` (coarse:
distinct inserts may share one). -/
structure Row where
  id : Nat
  user : Int
  role : String
  parts : List Char
  ts : Nat
  deriving DecidableEq

/-- The SQLite database: the append-only `history` table in insertion
(rowid) order, the next autoincrement id, and the `user_settings` table as
an association list (latest upsert first). -/
structure DB where
  history : List Row
  nextId : Nat
  settings : List (Int × Int)
  deriving DecidableEq

/-- `set_history_limit`: `INSERT OR REPLACE INTO user_settings`. -/
def set_history_limit (user_id : Int) (limit : Int) (db : DB) : DB :=
  { db with settings := (user_id, limit) :: db.settings }

/-- `get_history_limit`: the stored limit, or the default if absent. -/
def get_history_limit (settings : List (Int × Int)) (user_id : Int) : Int :=
  (settings.lookup user_id).getD DEFAULT_HISTORY_LIMIT

/-- `add_message_to_history`: `json.dumps` the parts, insert one row. -/
def add_message_to_history (now : Nat) (user_id : Int) (role : String)
    (parts : JsonList) (db : DB) : DB :=
  { db with
    history := db.history ++ [⟨db.nextId, user_id, role, encVal (Json.arr parts), now⟩]
    nextId := db.nextId + 1 }

/-- Insert a row into a timestamp-descending list, before the first row of
equal or smaller timestamp (the stable position for a row that precedes
the list rows in scan order). -/
def insertDescTs (r : Row) : List Row → List Row
  | [] => [r]
  | s :: l => if s.ts ≤ r.ts then r :: s :: l else s :: insertDescTs r l

/-- Stable timestamp-descending sort of the scanned rows: the deterministic
refinement of `ORDER BY timestamp DESC` executed by the SQLite sorter
(scan order preserved between rows with equal timestamps). -/
def sortDescTs : List Row → List Row
  | [] => []
  | r :: l => insertDescTs r (sortDescTs l)

/-- SQLite `LIMIT ?`: a negative limit means no limit. -/
def takeLimit (limit : Int) (l : List Row) : List Row :=
  if limit < 0 then l else l.take limit.toNat

/-- One formatted history entry: `{"role": ..., "parts": json.loads(...)}`. -/
def Entry := String × Json
deriving instance DecidableEq for Entry

/-- Parse the selected rows into Gemini-format entries; `json.loads`
raising on any row aborts `get_history`, modelled by `none`. -/
def parseRows : List Row → Option (List Entry)
  | [] => some []
  | r :: l =>
    match loads r.parts with
    | none => none
    | some p => (parseRows l).map fun es => ((r.role, p) : Entry) :: es

/-- `get_history`: select the user rows, newest first, up to the personal
limit, reverse into oldest-first order, and parse each `parts` text. -/
def get_history (db : DB) (user_id : Int) : Option (List Entry) :=
  let limit := get_history_limit db.settings user_id
  let rows := takeLimit limit (sortDescTs (db.history.filter fun r => r.user == user_id))
  parseRows rows.reverse

/-! ## Flood protection (`main.py`, cooldown section) -/

/-- `COOLDOWNS`: per-category minimum seconds between requests.  Clock
readings (`time.time()`) are modelled as integers: the cooldown logic only
compares time differences against these integer thresholds. -/
def COOLDOWNS : List (String × ℤ) :=
  [("text", 3), ("fact", 5), ("photo", 10), ("voice", 15), ("video", 20), ("settings", 2)]

/-- `COOLDOWNS.get(command_type, 2)`. -/
def cooldownOf (command_type : String) : ℤ :=
  (COOLDOWNS.lookup command_type).getD 2

/-- `user_last_request[user_id]` with the `defaultdict(float)` default 0. -/
def lookupD (m : List (Int × ℤ)) (user_id : Int) : ℤ :=
  (m.lookup user_id).getD 0

/-- `is_user_on_cooldown`: true when the time since the last request of
this user (one shared timestamp, whatever the category) is below the
cooldown of the requested category. -/
def is_user_on_cooldown (now : ℤ) (m : List (Int × ℤ)) (user_id : Int)
    (command_type : String) : Bool :=
  now - lookupD m user_id < cooldownOf command_type

/-- `update_user_timestamp`: record `now` for the user. -/
def update_user_timestamp (now : ℤ) (user_id : Int) (m : List (Int × ℤ)) :
    List (Int × ℤ) :=
  (user_id, now) :: m

/-! ## Handlers (`main.py`) -/

/-- `MAX_FILE_SIZE = 20 * 1024 * 1024`. -/
def MAX_FILE_SIZE : Nat := 20 * 1024 * 1024

/-- User-visible messages (copy abbreviated to tags; the wording is UI glue). -/
inductive Msg where
  | askHelp
  | factReply (s : String)
  | factQuota
  | factFail
  | procErr
  | longMsg (s : String)
  | tooLargeVoice
  | tooLargeVideo
  | voiceFail
  | videoFail
  | videoReceived
  deriving DecidableEq

/-- Observable actions of one handler run, in program order. -/
inductive Eff where
  | reply (m : Msg)
  | settingsMenu
  | historyRead
  | inferCall
  | sleepEff (seconds : Nat)
  | downloadCall
  | uploadCall
  | unlinkFile
  | deleteAsset (a : Nat)
  deriving DecidableEq

/-- Mutable process state the handlers touch: the SQLite database and the
`user_last_request` cooldown map. -/
structure BotState where
  db : DB
  last : List (Int × ℤ)
  deriving DecidableEq

/-- `[{"text": s}]`, the parts list both text handlers store. -/
def textParts (s : String) : JsonList :=
  JsonList.cons (Json.obj (JsonObj.cons "text".toList (Json.str s.toList) JsonObj.nil))
    JsonList.nil

/-- `random_fact`: cooldown check, then timestamp update, then the model
availability check, then the inference call.  The inference oracle reports
failure together with whether the error text mentions a quota. -/
def random_fact (now : ℤ) (modelAvailable : Bool) (factRes : Except Bool String)
    (st : BotState) (uid : Int) : BotState × List Eff :=
  if is_user_on_cooldown now st.last uid "fact" then (st, [])
  else
    let st1 : BotState := { st with last := update_user_timestamp now uid st.last }
    if modelAvailable = false then (st1, [])
    else
      match factRes with
      | .ok t => (st1, [.inferCall, .reply (.factReply t)])
      | .error isQuota => (st1, [.inferCall, .reply (if isQuota then .factQuota else .factFail)])

/-- `handle_message`: the three keyboard buttons dispatch first (each target
has its own cooldown check); plain text goes through cooldown, timestamp
update, model check, history load, inference, and the two history inserts. -/
def handle_message (now : ℤ) (nowTs : Nat) (modelAvailable : Bool)
    (inference : List Entry → String → Except Unit String) (factRes : Except Bool String)
    (st : BotState) (uid : Int) (text : String) : BotState × List Eff :=
  if text = "❓ Задать вопрос" then (st, [.reply .askHelp])
  else if text = "💡 Случайный факт" then random_fact now modelAvailable factRes st uid
  else if text = "⚙️ Настройки" then (st, [.settingsMenu])
  else if is_user_on_cooldown now st.last uid "text" then (st, [])
  else
    let st1 : BotState := { st with last := update_user_timestamp now uid st.last }
    if modelAvailable = false then (st1, [])
    else
      match get_history st1.db uid with
      | none => (st1, [.historyRead, .reply .procErr])
      | some h =>
        match inference h text with
        | .error _ => (st1, [.historyRead, .inferCall, .reply .procErr])
        | .ok resp =>
          let db1 := add_message_to_history nowTs uid "user" (textParts text) st1.db
          let db2 := add_message_to_history nowTs uid "model" (textParts resp) db1
          ({ st1 with db := db2 }, [.historyRead, .inferCall, .reply (.longMsg resp)])

/-- Static shape of one media handler (`handle_voice` / `handle_video_note`
differ only in these fields). -/
structure MediaCfg where
  category : String
  sleepT : Nat
  tooLargeMsg : Msg
  failMsg : Msg
  preReply : Option Msg
  userTurnText : String

/-- Oracles and inputs of one media request: declared file size, clocks,
model availability, and the fallible network calls. -/
structure MediaEnv where
  fileSize : Nat
  now : ℤ
  nowTs : Nat
  modelAvailable : Bool
  download : Except Unit Unit
  uploadRes : Except Unit (Nat × String)
  getFile : Nat → Except Unit String
  inference : List Entry → Except Unit String

/-- State of one media request at the end of the `try` body (or of the
`except` branch), before `finally` runs: whether the local temp file is on
disk and which remote asset identifier the `gemini_file` variable holds. -/
structure MediaBody where
  st : BotState
  effs : List Eff
  fileOnDisk : Bool
  asset : Option Nat

/-- Result of one media handler run, after `finally`. -/
structure MediaResult where
  st : BotState
  effs : List Eff
  fileOnDisk : Bool
  assetLive : Option Nat
  assetObtained : Option Nat
  fileCreated : Bool
  deriving DecidableEq

/-- The `finally` block: unlink the temp file if it exists, delete the
remote asset if one was obtained; afterwards neither resource remains. -/
def runFinally (b : MediaBody) : MediaResult :=
  { st := b.st
    effs := b.effs ++ (if b.fileOnDisk then [Eff.unlinkFile] else [])
      ++ (match b.asset with | some a => [Eff.deleteAsset a] | none => [])
    fileOnDisk := false
    assetLive := none
    assetObtained := b.asset
    fileCreated := b.fileOnDisk }

/-- `while gemini_file.state.name == "PROCESSING": time.sleep(T);
gemini_file = genai.get_file(...)`.  The loop has no attempt ceiling in the
source; `fuel` bounds the modelled run and `none` marks divergence. -/
def pollLoop (getF : Nat → Except Unit String) (sleepT : Nat) :
    Nat → Nat → String → Option (Except Unit String × List Eff)
  | fuel, k, cur =>
    if cur = "PROCESSING" then
      match fuel with
      | 0 => none
      | fuel' + 1 =>
        match getF k with
        | .error e => some (.error e, [Eff.sleepEff sleepT])
        | .ok next =>
          (pollLoop getF sleepT fuel' (k + 1) next).map fun p =>
            (p.1, Eff.sleepEff sleepT :: p.2)
    else some (.ok cur, [])

/-- Common flow of `handle_voice` / `handle_video_note`: cooldown check;
then inside `try`: size guard, timestamp update, model check, download to a
temp file, upload, poll until the state leaves `"PROCESSING"`, raise on
`"FAILED"`, load history, call inference, append the two turns; `except`
replies the failure message; `finally` releases both resources. -/
def handleMedia (cfg : MediaCfg) (fuel : Nat) (env : MediaEnv) (st : BotState)
    (uid : Int) : Option MediaResult :=
  if is_user_on_cooldown env.now st.last uid cfg.category then
    some
      { st := st
        effs := []
        fileOnDisk := false
        assetLive := none
        assetObtained := none
        fileCreated := false }
  else if env.fileSize > MAX_FILE_SIZE then
    some (runFinally
      { st := st
        effs := [Eff.reply cfg.tooLargeMsg]
        fileOnDisk := false
        asset := none })
  else
    let st1 : BotState := { st with last := update_user_timestamp env.now uid st.last }
    if env.modelAvailable = false then
      some (runFinally { st := st1, effs := [], fileOnDisk := false, asset := none })
    else
      let effs0 : List Eff := match cfg.preReply with | some m => [Eff.reply m] | none => []
      match env.download with
      | .error _ =>
        some (runFinally
          { st := st1
            effs := effs0 ++ [Eff.downloadCall, Eff.reply cfg.failMsg]
            fileOnDisk := false
            asset := none })
      | .ok _ =>
        match env.uploadRes with
        | .error _ =>
          some (runFinally
            { st := st1
              effs := effs0 ++ [Eff.downloadCall, Eff.uploadCall, Eff.reply cfg.failMsg]
              fileOnDisk := true
              asset := none })
        | .ok (aid, state0) =>
          match pollLoop env.getFile cfg.sleepT fuel 0 state0 with
          | none => none
          | some (outcome, pollEffs) =>
            let effs1 := effs0 ++ [Eff.downloadCall, Eff.uploadCall] ++ pollEffs
            match outcome with
            | .error _ =>
              some (runFinally
                { st := st1
                  effs := effs1 ++ [Eff.reply cfg.failMsg]
                  fileOnDisk := true
                  asset := some aid })
            | .ok finalState =>
              if finalState = "FAILED" then
                some (runFinally
                  { st := st1
                    effs := effs1 ++ [Eff.reply cfg.failMsg]
                    fileOnDisk := true
                    asset := some aid })
              else
                match get_history st1.db uid with
                | none =>
                  some (runFinally
                    { st := st1
                      effs := effs1 ++ [Eff.historyRead, Eff.reply cfg.failMsg]
                      fileOnDisk := true
                      asset := some aid })
                | some h =>
                  match env.inference h with
                  | .error _ =>
                    some (runFinally
                      { st := st1
                        effs := effs1 ++ [Eff.historyRead, Eff.inferCall,
                          Eff.reply cfg.failMsg]
                        fileOnDisk := true
                        asset := some aid })
                  | .ok resp =>
                    let db1 := add_message_to_history env.nowTs uid "user"
                      (textParts cfg.userTurnText) st1.db
                    let db2 := add_message_to_history env.nowTs uid "model"
                      (textParts resp) db1
                    some (runFinally
                      { st := { st1 with db := db2 }
                        effs := effs1 ++ [Eff.historyRead, Eff.inferCall,
                          Eff.reply (Msg.longMsg resp)]
                        fileOnDisk := true
                        asset := some aid })

/-- `handle_voice`: cooldown category `"voice"`, 2-second poll interval,
stores the user turn `"(Голосовое сообщение)"`. -/
def voiceCfg : MediaCfg :=
  { category := "voice", sleepT := 2, tooLargeMsg := .tooLargeVoice,
    failMsg := .voiceFail, preReply := none,
    userTurnText := "(Голосовое сообщение)" }

/-- `handle_video_note`: cooldown category `"video"`, 5-second poll
interval, a progress reply before processing, stores `"(Видеосообщение)"`. -/
def videoCfg : MediaCfg :=
  { category := "video", sleepT := 5, tooLargeMsg := .tooLargeVideo,
    failMsg := .videoFail, preReply := some .videoReceived,
    userTurnText := "(Видеосообщение)" }

/-- The voice handler. -/
def handle_voice : Nat → MediaEnv → BotState → Int → Option MediaResult :=
  handleMedia voiceCfg

/-- The video-note handler. -/
def handle_video_note : Nat → MediaEnv → BotState → Int → Option MediaResult :=
  handleMedia videoCfg

/-! ## Statement scaffolding (sequences of appends, concrete poll oracles) -/

/-- The rows a sequence of appends `(role, parts, timestamp)` inserts for
one user, with consecutive autoincrement ids starting at `n`. -/
def buildRows (n : Nat) (u : Int) : List (String × JsonList × Nat) → List Row
  | [] => []
  | it :: items =>
    ⟨n, u, it.1, encVal (Json.arr it.2.1), it.2.2⟩ :: buildRows (n + 1) u items

/-- Run a sequence of `add_message_to_history` calls for one user. -/
def foldAppends (db : DB) (u : Int) : List (String × JsonList × Nat) → DB
  | [] => db
  | it :: items => foldAppends (add_message_to_history it.2.2 u it.1 it.2.1 db) u items

/-- A remote asset that reports `PROCESSING` at every poll. -/
def procForever : Nat → Except Unit String := fun _ => .ok "PROCESSING"

/-- A remote asset that reports `PROCESSING` for the first `m` polls and
`ACTIVE` afterwards. -/
def procUntil (m : Nat) : Nat → Except Unit String :=
  fun j => .ok (if j < m then "PROCESSING" else "ACTIVE")

/-- A media request whose remote asset never leaves `PROCESSING`. -/
def stuckEnv : MediaEnv :=
  { fileSize := 0, now := 100, nowTs := 0, modelAvailable := true,
    download := .ok (), uploadRes := .ok (7, "PROCESSING"),
    getFile := procForever, inference := fun _ => .ok "reply" }

/-- A media request in which every oracle succeeds and the asset is ready
at once. -/
def okEnv : MediaEnv :=
  { fileSize := 0, now := 100, nowTs := 9, modelAvailable := true,
    download := .ok (), uploadRes := .ok (3, "ACTIVE"),
    getFile := fun _ => .ok "ACTIVE", inference := fun _ => .ok "ok" }

/-- The result of running the voice handler on `okEnv` from a fresh state. -/
def okVoiceResult : MediaResult :=
  { st := ⟨⟨[⟨0, 1, "user", encVal (Json.arr (textParts "(Голосовое сообщение)")), 9⟩,
             ⟨1, 1, "model", encVal (Json.arr (textParts "ok")), 9⟩], 2, []⟩, [(1, 100)]⟩
    effs := [Eff.downloadCall, Eff.uploadCall, Eff.historyRead, Eff.inferCall,
      Eff.reply (Msg.longMsg "ok"), Eff.unlinkFile, Eff.deleteAsset 3]
    fileOnDisk := false
    assetLive := none
    assetObtained := some 3
    fileCreated := true }

/-- A media request whose declared size exceeds the 20 MiB ceiling. -/
def bigEnv : MediaEnv := { okEnv with fileSize := MAX_FILE_SIZE + 1 }

/-- Fresh process state: empty database, empty cooldown map. -/
def st0 : BotState := ⟨⟨[], 0, []⟩, []⟩

/-! ## Character, hex-digit and decimal-digit lemmas -/

theorem char_toNat_facts (c : Char) :
    c.toNat < 1114112 ∧ ¬ (55296 ≤ c.toNat ∧ c.toNat ≤ 57343) := by
  have h := c.valid
  rcases h with h | ⟨h1, h2⟩
  · have : c.toNat < 55296 := h
    constructor <;> omega
  · have g1 : 57343 < c.toNat := h1
    have g2 : c.toNat < 1114112 := h2
    constructor <;> omega

theorem hexVal_hexDig : ∀ k < 16, hexVal (hexDig k) = some k := by decide

theorem hexVal4_hex4 (n : Nat) (h : n < 65536) :
    hexVal4 (hexDig (n / 4096 % 16)) (hexDig (n / 256 % 16))
      (hexDig (n / 16 % 16)) (hexDig (n % 16)) = some n := by
  have e1 := hexVal_hexDig (n / 4096 % 16) (by omega)
  have e2 := hexVal_hexDig (n / 256 % 16) (by omega)
  have e3 := hexVal_hexDig (n / 16 % 16) (by omega)
  have e4 := hexVal_hexDig (n % 16) (by omega)
  simp only [hexVal4, e1, e2, e3, e4]
  congr 1
  omega

theorem hexDig_isDigit : ∀ k < 10, (hexDig k).isDigit = true := by decide

theorem hexDig_toNat : ∀ k < 10, (hexDig k).toNat = 48 + k := by decide

theorem encNatAux_append (n : Nat) : ∀ acc, encNatAux n acc = encNatAux n [] ++ acc := by
  induction n using Nat.strong_induction_on with
  | _ n ih =>
    intro acc
    by_cases h : n < 10
    · conv_lhs => rw [encNatAux]
      conv_rhs => rw [encNatAux]
      simp [h]
    · conv_lhs => rw [encNatAux]
      conv_rhs => rw [encNatAux]
      simp only [h, if_false]
      rw [ih (n / 10) (Nat.div_lt_self (by omega) (by omega)) (hexDig (n % 10) :: acc),
        ih (n / 10) (Nat.div_lt_self (by omega) (by omega)) [hexDig (n % 10)]]
      simp

theorem encNat_digits (n : Nat) : ∀ c ∈ encNat n, c.isDigit = true := by
  induction n using Nat.strong_induction_on with
  | _ n ih =>
    intro c hc
    unfold encNat at hc
    rw [encNatAux] at hc
    by_cases h : n < 10
    · simp only [h, if_true] at hc
      simp at hc
      subst hc
      exact hexDig_isDigit _ (by omega)
    · simp only [h, if_false] at hc
      rw [encNatAux_append] at hc
      rcases List.mem_append.1 hc with hc2 | hc2
      · exact ih (n / 10) (Nat.div_lt_self (by omega) (by omega)) c hc2
      · simp at hc2
        subst hc2
        exact hexDig_isDigit _ (by omega)

theorem encNat_ne_nil (n : Nat) : encNat n ≠ [] := by
  unfold encNat
  rw [encNatAux]
  by_cases h : n < 10
  · simp [h]
  · simp only [h, if_false]
    rw [encNatAux_append]
    simp

theorem digitsVal_append (xs : List Char) :
    ∀ ys acc, digitsVal (xs ++ ys) acc = digitsVal ys (digitsVal xs acc) := by
  induction xs with
  | nil => intro ys acc; rfl
  | cons c r ih => intro ys acc; simp [digitsVal, ih]

theorem digitsVal_encNat (n : Nat) :
    ∀ acc, digitsVal (encNat n) acc = acc * 10 ^ (encNat n).length + n := by
  induction n using Nat.strong_induction_on with
  | _ n ih =>
    intro acc
    by_cases h : n < 10
    · have he : encNat n = [hexDig n] := by
        unfold encNat
        rw [encNatAux]
        simp [h]
      rw [he]
      simp only [digitsVal, List.length_singleton, pow_one]
      rw [hexDig_toNat n h]
      omega
    · have hd : encNat n = encNat (n / 10) ++ [hexDig (n % 10)] := by
        unfold encNat
        conv_lhs => rw [encNatAux]
        simp only [h, if_false]
        exact encNatAux_append (n / 10) [hexDig (n % 10)]
      rw [hd, digitsVal_append, ih (n / 10) (Nat.div_lt_self (by omega) (by omega))]
      simp only [digitsVal, List.length_append, List.length_singleton]
      rw [hexDig_toNat (n % 10) (by omega)]
      have hs : 48 + n % 10 - 48 = n % 10 := by omega
      rw [hs]
      have hmod : n / 10 * 10 + n % 10 = n := by omega
      calc (acc * 10 ^ (encNat (n / 10)).length + n / 10) * 10 + n % 10
          = acc * (10 ^ (encNat (n / 10)).length * 10) + (n / 10 * 10 + n % 10) := by ring
        _ = acc * 10 ^ ((encNat (n / 10)).length + 1) + n := by rw [hmod, ← pow_succ]

theorem takeDigits_spec : ∀ ds rest acc, (∀ c ∈ ds, c.isDigit = true) →
    noDigit rest = true → takeDigits (ds ++ rest) acc = (digitsVal ds acc, rest) := by
  intro ds
  induction ds with
  | nil =>
    intro rest acc _ hr
    cases rest with
    | nil => rfl
    | cons c r =>
      simp only [List.nil_append, digitsVal]
      rw [takeDigits]
      simp only [noDigit, Bool.not_eq_true'] at hr
      simp [hr]
  | cons c ds ih =>
    intro rest acc hd hr
    simp only [List.cons_append]
    rw [takeDigits]
    have hc : c.isDigit = true := hd c (List.mem_cons_self _ _)
    simp only [hc, if_true, digitsVal]
    exact ih rest _ (fun x hx => hd x (List.mem_cons_of_mem _ hx)) hr

theorem digitsVal_encNat_zero (n : Nat) : digitsVal (encNat n) 0 = n := by
  rw [digitsVal_encNat n 0]
  simp

theorem parseNum_encNat (n : Nat) (rest : List Char) (hr : noDigit rest = true) :
    parseNum (encNat n ++ rest) = some ((n : Int), rest) := by
  obtain ⟨d, ds, hds⟩ : ∃ d ds, encNat n = d :: ds := by
    cases h : encNat n with
    | nil => exact absurd h (encNat_ne_nil n)
    | cons d ds => exact ⟨d, ds, rfl⟩
  have hd : d.isDigit = true := encNat_digits n d (by rw [hds]; exact List.mem_cons_self _ _)
  have hdm : ¬ d = '-' := by
    intro e
    subst e
    exact absurd hd (by decide)
  have hds2 : ∀ c ∈ ds, c.isDigit = true := fun c hc =>
    encNat_digits n c (by rw [hds]; exact List.mem_cons_of_mem _ hc)
  have hval : digitsVal ds (d.toNat - 48) = n := by
    have h0 := digitsVal_encNat_zero n
    rw [hds] at h0
    simpa [digitsVal] using h0
  rw [hds]
  simp only [List.cons_append]
  simp only [parseNum.eq_def]
  rw [if_neg hdm, if_pos hd]
  simp only [takeDigits_spec ds rest (d.toNat - 48) hds2 hr, hval]

theorem parseNum_encInt (i : Int) (rest : List Char) (hr : noDigit rest = true) :
    parseNum (encInt i ++ rest) = some (i, rest) := by
  by_cases hi : i < 0
  · rw [encInt, if_pos hi]
    obtain ⟨d, ds, hds⟩ : ∃ d ds, encNat (-i).toNat = d :: ds := by
      cases h : encNat (-i).toNat with
      | nil => exact absurd h (encNat_ne_nil _)
      | cons d ds => exact ⟨d, ds, rfl⟩
    have hd : d.isDigit = true :=
      encNat_digits _ d (by rw [hds]; exact List.mem_cons_self _ _)
    have hds2 : ∀ c ∈ ds, c.isDigit = true := fun c hc =>
      encNat_digits _ c (by rw [hds]; exact List.mem_cons_of_mem _ hc)
    have hval : digitsVal ds (d.toNat - 48) = (-i).toNat := by
      have h0 := digitsVal_encNat_zero (-i).toNat
      rw [hds] at h0
      simpa [digitsVal] using h0
    simp only [List.cons_append]
    rw [hds]
    simp only [List.cons_append]
    simp only [parseNum.eq_def, if_true]
    simp only [hd, if_true]
    rw [takeDigits_spec ds rest (d.toNat - 48) hds2 hr]
    simp only [hval]
    congr 1
    congr 1
    omega
  · rw [encInt, if_neg hi]
    rw [parseNum_encNat i.toNat rest hr]
    congr 2
    omega

/-! ## String round-trip -/

theorem parseStr_enc (s : List Char) :
    ∀ f rest, (encStr s).length < f →
      parseStr f (encStr s ++ quoteC :: rest) = some (s, rest) := by
  induction s with
  | nil =>
    intro f rest hf
    obtain ⟨g, rfl⟩ : ∃ g, f = g + 1 := ⟨f - 1, by omega⟩
    simp only [encStr, List.nil_append]
    rw [parseStr]
    rw [if_pos rfl]
  | cons c s ih =>
    intro f rest hf
    simp only [encStr] at hf ⊢
    by_cases hc1 : c = quoteC
    · have hel : encChar c = [bslashC, quoteC] := by unfold encChar; rw [if_pos hc1]
      rw [hel] at hf ⊢
      simp only [List.length_append, List.length_cons, List.length_nil] at hf
      obtain ⟨g, rfl⟩ : ∃ g, f = g + 2 := ⟨f - 2, by omega⟩
      simp only [List.cons_append, List.nil_append]
      rw [parseStr, if_neg (show ¬ bslashC = quoteC from by decide), if_pos rfl]
      rw [parseEsc, if_pos rfl]
      rw [ih g rest (by omega)]
      subst hc1
      rfl
    · by_cases hc2 : c = bslashC
      · have hel : encChar c = [bslashC, bslashC] := by
          unfold encChar; rw [if_neg hc1, if_pos hc2]
        rw [hel] at hf ⊢
        simp only [List.length_append, List.length_cons, List.length_nil] at hf
        obtain ⟨g, rfl⟩ : ∃ g, f = g + 2 := ⟨f - 2, by omega⟩
        simp only [List.cons_append, List.nil_append]
        rw [parseStr, if_neg (show ¬ bslashC = quoteC from by decide), if_pos rfl]
        rw [parseEsc, if_neg (show ¬ bslashC = quoteC from by decide), if_pos rfl]
        rw [ih g rest (by omega)]
        subst hc2
        rfl
      · by_cases hc3 : c = Char.ofNat 8
        · have hel : encChar c = [bslashC, 'b'] := by
            unfold encChar; rw [if_neg hc1, if_neg hc2, if_pos hc3]
          rw [hel] at hf ⊢
          simp only [List.length_append, List.length_cons, List.length_nil] at hf
          obtain ⟨g, rfl⟩ : ∃ g, f = g + 2 := ⟨f - 2, by omega⟩
          simp only [List.cons_append, List.nil_append]
          rw [parseStr, if_neg (show ¬ bslashC = quoteC from by decide), if_pos rfl]
          rw [parseEsc, if_neg (show ¬ ('b' = quoteC) from by decide),
            if_neg (show ¬ ('b' = bslashC) from by decide),
            if_neg (show ¬ ('b' = '/') from by decide), if_pos rfl]
          rw [ih g rest (by omega)]
          subst hc3
          rfl
        · by_cases hc4 : c = Char.ofNat 9
          · have hel : encChar c = [bslashC, 't'] := by
              unfold encChar; rw [if_neg hc1, if_neg hc2, if_neg hc3, if_pos hc4]
            rw [hel] at hf ⊢
            simp only [List.length_append, List.length_cons, List.length_nil] at hf
            obtain ⟨g, rfl⟩ : ∃ g, f = g + 2 := ⟨f - 2, by omega⟩
            simp only [List.cons_append, List.nil_append]
            rw [parseStr, if_neg (show ¬ bslashC = quoteC from by decide), if_pos rfl]
            rw [parseEsc, if_neg (show ¬ ('t' = quoteC) from by decide),
              if_neg (show ¬ ('t' = bslashC) from by decide),
              if_neg (show ¬ ('t' = '/') from by decide),
              if_neg (show ¬ ('t' = 'b') from by decide), if_pos rfl]
            rw [ih g rest (by omega)]
            subst hc4
            rfl
          · by_cases hc5 : c = Char.ofNat 10
            · have hel : encChar c = [bslashC, 'n'] := by
                unfold encChar
                rw [if_neg hc1, if_neg hc2, if_neg hc3, if_neg hc4, if_pos hc5]
              rw [hel] at hf ⊢
              simp only [List.length_append, List.length_cons, List.length_nil] at hf
              obtain ⟨g, rfl⟩ : ∃ g, f = g + 2 := ⟨f - 2, by omega⟩
              simp only [List.cons_append, List.nil_append]
              rw [parseStr, if_neg (show ¬ bslashC = quoteC from by decide), if_pos rfl]
              rw [parseEsc, if_neg (show ¬ ('n' = quoteC) from by decide),
                if_neg (show ¬ ('n' = bslashC) from by decide),
                if_neg (show ¬ ('n' = '/') from by decide),
                if_neg (show ¬ ('n' = 'b') from by decide),
                if_neg (show ¬ ('n' = 't') from by decide), if_pos rfl]
              rw [ih g rest (by omega)]
              subst hc5
              rfl
            · by_cases hc6 : c = Char.ofNat 12
              · have hel : encChar c = [bslashC, 'f'] := by
                  unfold encChar
                  rw [if_neg hc1, if_neg hc2, if_neg hc3, if_neg hc4, if_neg hc5, if_pos hc6]
                rw [hel] at hf ⊢
                simp only [List.length_append, List.length_cons, List.length_nil] at hf
                obtain ⟨g, rfl⟩ : ∃ g, f = g + 2 := ⟨f - 2, by omega⟩
                simp only [List.cons_append, List.nil_append]
                rw [parseStr, if_neg (show ¬ bslashC = quoteC from by decide), if_pos rfl]
                rw [parseEsc, if_neg (show ¬ ('f' = quoteC) from by decide),
                  if_neg (show ¬ ('f' = bslashC) from by decide),
                  if_neg (show ¬ ('f' = '/') from by decide),
                  if_neg (show ¬ ('f' = 'b') from by decide),
                  if_neg (show ¬ ('f' = 't') from by decide),
                  if_neg (show ¬ ('f' = 'n') from by decide), if_pos rfl]
                rw [ih g rest (by omega)]
                subst hc6
                rfl
              · by_cases hc7 : c = Char.ofNat 13
                · have hel : encChar c = [bslashC, 'r'] := by
                    unfold encChar
                    rw [if_neg hc1, if_neg hc2, if_neg hc3, if_neg hc4, if_neg hc5,
                      if_neg hc6, if_pos hc7]
                  rw [hel] at hf ⊢
                  simp only [List.length_append, List.length_cons, List.length_nil] at hf
                  obtain ⟨g, rfl⟩ : ∃ g, f = g + 2 := ⟨f - 2, by omega⟩
                  simp only [List.cons_append, List.nil_append]
                  rw [parseStr, if_neg (show ¬ bslashC = quoteC from by decide), if_pos rfl]
                  rw [parseEsc, if_neg (show ¬ ('r' = quoteC) from by decide),
                    if_neg (show ¬ ('r' = bslashC) from by decide),
                    if_neg (show ¬ ('r' = '/') from by decide),
                    if_neg (show ¬ ('r' = 'b') from by decide),
                    if_neg (show ¬ ('r' = 't') from by decide),
                    if_neg (show ¬ ('r' = 'n') from by decide),
                    if_neg (show ¬ ('r' = 'f') from by decide), if_pos rfl]
                  rw [ih g rest (by omega)]
                  subst hc7
                  rfl
                · by_cases hc8 : 32 ≤ c.toNat ∧ c.toNat ≤ 126
                  · have hel : encChar c = [c] := by
                      unfold encChar
                      rw [if_neg hc1, if_neg hc2, if_neg hc3, if_neg hc4, if_neg hc5,
                        if_neg hc6, if_neg hc7, if_pos hc8]
                    rw [hel] at hf ⊢
                    simp only [List.length_append, List.length_cons, List.length_nil] at hf
                    obtain ⟨g, rfl⟩ : ∃ g, f = g + 1 := ⟨f - 1, by omega⟩
                    simp only [List.cons_append, List.nil_append]
                    rw [parseStr, if_neg hc1, if_neg hc2,
                      if_neg (show ¬ c.toNat < 32 by omega)]
                    rw [ih g rest (by omega)]
                    rfl
                  · by_cases hc9 : c.toNat < 65536
                    · have hel : encChar c = bslashC :: 'u' :: hex4 c.toNat := by
                        unfold encChar
                        rw [if_neg hc1, if_neg hc2, if_neg hc3, if_neg hc4, if_neg hc5,
                          if_neg hc6, if_neg hc7, if_neg hc8, if_pos hc9]
                      rw [hel] at hf ⊢
                      simp only [hex4, List.length_append, List.length_cons,
                        List.length_nil] at hf
                      obtain ⟨g, rfl⟩ : ∃ g, f = g + 3 := ⟨f - 3, by omega⟩
                      simp only [hex4, List.cons_append, List.nil_append]
                      rw [parseStr, if_neg (show ¬ bslashC = quoteC from by decide),
                        if_pos rfl]
                      rw [parseEsc, if_neg (show ¬ ('u' = quoteC) from by decide),
                        if_neg (show ¬ ('u' = bslashC) from by decide),
                        if_neg (show ¬ ('u' = '/') from by decide),
                        if_neg (show ¬ ('u' = 'b') from by decide),
                        if_neg (show ¬ ('u' = 't') from by decide),
                        if_neg (show ¬ ('u' = 'n') from by decide),
                        if_neg (show ¬ ('u' = 'f') from by decide),
                        if_neg (show ¬ ('u' = 'r') from by decide), if_pos rfl]
                      rw [parseU]
                      have hv := char_toNat_facts c
                      simp only [hexVal4_hex4 c.toNat hc9]
                      rw [if_neg (show ¬ (55296 ≤ c.toNat ∧ c.toNat < 56320) by omega),
                        if_neg (show ¬ (56320 ≤ c.toNat ∧ c.toNat < 57344) by omega)]
                      rw [ih g rest (by omega)]
                      simp [Char.ofNat_toNat]
                    · have hel : encChar c = bslashC :: 'u' :: hex4 (55296 + (c.toNat - 65536) / 1024)
                          ++ bslashC :: 'u' :: hex4 (56320 + (c.toNat - 65536) % 1024) := by
                        unfold encChar
                        rw [if_neg hc1, if_neg hc2, if_neg hc3, if_neg hc4, if_neg hc5,
                          if_neg hc6, if_neg hc7, if_neg hc8, if_neg hc9]
                      have hv := char_toNat_facts c
                      have hhi : 55296 + (c.toNat - 65536) / 1024 < 65536 := by omega
                      have hlo : 56320 + (c.toNat - 65536) % 1024 < 65536 := by
                        have := Nat.mod_lt (c.toNat - 65536) (show 0 < 1024 by omega)
                        omega
                      rw [hel] at hf ⊢
                      simp only [hex4, List.length_append, List.length_cons,
                        List.length_nil] at hf
                      obtain ⟨g, rfl⟩ : ∃ g, f = g + 4 := ⟨f - 4, by omega⟩
                      simp only [hex4, List.cons_append, List.nil_append, List.append_assoc]
                      rw [parseStr, if_neg (show ¬ bslashC = quoteC from by decide),
                        if_pos rfl]
                      rw [parseEsc, if_neg (show ¬ ('u' = quoteC) from by decide),
                        if_neg (show ¬ ('u' = bslashC) from by decide),
                        if_neg (show ¬ ('u' = '/') from by decide),
                        if_neg (show ¬ ('u' = 'b') from by decide),
                        if_neg (show ¬ ('u' = 't') from by decide),
                        if_neg (show ¬ ('u' = 'n') from by decide),
                        if_neg (show ¬ ('u' = 'f') from by decide),
                        if_neg (show ¬ ('u' = 'r') from by decide), if_pos rfl]
                      rw [parseU]
                      simp only [hexVal4_hex4 _ hhi]
                      rw [if_pos (show 55296 ≤ 55296 + (c.toNat - 65536) / 1024 ∧
                          55296 + (c.toNat - 65536) / 1024 < 56320 by omega)]
                      rw [parsePair]
                      rw [if_pos ⟨rfl, rfl⟩]
                      simp only [hexVal4_hex4 _ hlo]
                      rw [if_pos (show 56320 ≤ 56320 + (c.toNat - 65536) % 1024 ∧
                          56320 + (c.toNat - 65536) % 1024 < 57344 by omega)]
                      rw [ih g rest (by omega)]
                      have hc : 65536 + (55296 + (c.toNat - 65536) / 1024 - 55296) * 1024
                          + (56320 + (c.toNat - 65536) % 1024 - 56320) = c.toNat := by
                        omega
                      rw [hc]
                      simp [Char.ofNat_toNat]

/-! ## Canonical-text round-trip for whole values -/

theorem noDigit_items (t : JsonList) (rest : List Char) :
    noDigit (encItemsRest t ++ (']' :: rest)) = true := by
  cases t <;> rfl

theorem noDigit_fields (t : JsonObj) (rest : List Char) :
    noDigit (encFieldsRest t ++ (rbraceC :: rest)) = true := by
  cases t <;> rfl

theorem digit_ne_specials (c : Char) (h : c.isDigit = true) :
    ¬ c = quoteC ∧ ¬ c = '[' ∧ ¬ c = lbraceC ∧ ¬ c = 'n' ∧ ¬ c = 't' ∧ ¬ c = 'f' := by
  refine ⟨?_, ?_, ?_, ?_, ?_, ?_⟩ <;> (intro e; subst e; exact absurd h (by decide))

theorem encNat_head (n : Nat) : ∃ d ds, encNat n = d :: ds ∧ d.isDigit = true := by
  cases h : encNat n with
  | nil => exact absurd h (encNat_ne_nil n)
  | cons d ds =>
    refine ⟨d, ds, rfl, encNat_digits n d ?_⟩
    rw [h]
    exact List.mem_cons_self _ _

theorem encInt_head (i : Int) :
    ∃ c cs, encInt i = c :: cs ∧ (c = '-' ∨ c.isDigit = true) := by
  by_cases hi : i < 0
  · exact ⟨'-', encNat (-i).toNat, by rw [encInt, if_pos hi], Or.inl rfl⟩
  · obtain ⟨d, ds, hds, hd⟩ := encNat_head i.toNat
    exact ⟨d, ds, by rw [encInt, if_neg hi, hds], Or.inr hd⟩

theorem encVal_head (v : Json) : ∃ c cs, encVal v = c :: cs ∧ ¬ c = ']' := by
  cases v with
  | null => exact ⟨'n', _, rfl, by decide⟩
  | bool b =>
    cases b with
    | false => exact ⟨'f', _, rfl, by decide⟩
    | true => exact ⟨'t', _, rfl, by decide⟩
  | num i =>
    obtain ⟨c, cs, hds, hc⟩ := encInt_head i
    refine ⟨c, cs, by simp only [encVal]; exact hds, ?_⟩
    rcases hc with hc | hc
    · subst hc; decide
    · intro e; subst e; exact absurd hc (by decide)
  | str s => exact ⟨quoteC, _, rfl, by decide⟩
  | arr xs =>
    cases xs with
    | nil => exact ⟨'[', _, rfl, by decide⟩
    | cons h t => exact ⟨'[', _, rfl, by decide⟩
  | obj xs =>
    cases xs with
    | nil => exact ⟨lbraceC, _, rfl, by decide⟩
    | cons k v t => exact ⟨lbraceC, _, rfl, by decide⟩

theorem parseVal_arr_cons (f : Nat) (input : List Char)
    (h : ∃ c cs, input = c :: cs ∧ ¬ c = ']') :
    parseVal (f + 1) ('[' :: input) =
      (parseItems f input).map fun p => (Json.arr p.1, p.2) := by
  obtain ⟨c, cs, rfl, hne⟩ := h
  rw [parseVal]
  simp +decide [hne]

theorem parseVal_obj_cons (f : Nat) (input : List Char)
    (h : ∃ c cs, input = c :: cs ∧ ¬ c = rbraceC) :
    parseVal (f + 1) (lbraceC :: input) =
      (parseFields f input).map fun p => (Json.obj p.1, p.2) := by
  obtain ⟨c, cs, rfl, hne⟩ := h
  rw [parseVal]
  simp +decide [hne]

theorem parseItems_last (f : Nat) (input : List Char) (v : Json) (rest : List Char)
    (hv : parseVal f input = some (v, ']' :: rest)) :
    parseItems (f + 1) input = some (JsonList.cons v .nil, rest) := by
  rw [parseItems, hv]
  rfl

theorem parseItems_more (f : Nat) (input : List Char) (v : Json) (tail : List Char)
    (hv : parseVal f input = some (v, ',' :: ' ' :: tail)) :
    parseItems (f + 1) input =
      (parseItems f tail).map fun p => (JsonList.cons v p.1, p.2) := by
  rw [parseItems, hv]
  rfl

theorem parseFields_step (f : Nat) (k : List Char) (X : List Char)
    (hk : (encStr k).length < f) :
    parseFields (f + 1) (quoteC :: (encStr k ++ (quoteC :: ':' :: ' ' :: X))) =
      match parseVal f X with
      | none => none
      | some (v, r3) =>
        match r3 with
        | [] => none
        | c4 :: r4 =>
          if c4 = ',' then
            match r4 with
            | [] => none
            | c5 :: r5 =>
              if c5 = ' ' then (parseFields f r5).map fun p => (JsonObj.cons k v p.1, p.2)
              else none
          else if c4 = rbraceC then some (JsonObj.cons k v .nil, r4)
          else none := by
  rw [parseFields]
  rw [if_pos rfl]
  rw [parseStr_enc k f _ hk]
  rfl

theorem parseFields_last (f : Nat) (k : List Char) (X : List Char) (v : Json)
    (rest : List Char) (hk : (encStr k).length < f)
    (hv : parseVal f X = some (v, rbraceC :: rest)) :
    parseFields (f + 1) (quoteC :: (encStr k ++ (quoteC :: ':' :: ' ' :: X))) =
      some (JsonObj.cons k v .nil, rest) := by
  rw [parseFields_step f k X hk, hv]
  rfl

theorem parseFields_more (f : Nat) (k : List Char) (X : List Char) (v : Json)
    (tail : List Char) (hk : (encStr k).length < f)
    (hv : parseVal f X = some (v, ',' :: ' ' :: tail)) :
    parseFields (f + 1) (quoteC :: (encStr k ++ (quoteC :: ':' :: ' ' :: X))) =
      (parseFields f tail).map fun p => (JsonObj.cons k v p.1, p.2) := by
  rw [parseFields_step f k X hk, hv]
  rfl

theorem parseVal_num (f : Nat) (c : Char) (cs : List Char)
    (h1 : ¬ c = quoteC) (h2 : ¬ c = '[') (h3 : ¬ c = lbraceC) (h4 : ¬ c = 'n')
    (h5 : ¬ c = 't') (h6 : ¬ c = 'f') :
    parseVal (f + 1) (c :: cs) =
      (parseNum (c :: cs)).map fun p => (Json.num p.1, p.2) := by
  conv_lhs => rw [parseVal.eq_def]
  simp only [h1, h2, h3, h4, h5, h6, if_false]

theorem parse_enc_main : ∀ fuel : Nat,
    (∀ v rest, (encVal v).length < fuel → noDigit rest = true →
      parseVal fuel (encVal v ++ rest) = some (v, rest)) ∧
    (∀ h t rest, (encVal h).length + (encItemsRest t).length + 1 < fuel →
      parseItems fuel (encVal h ++ (encItemsRest t ++ (']' :: rest))) =
        some (JsonList.cons h t, rest)) ∧
    (∀ k v t rest,
      (encStr k).length + (encVal v).length + (encFieldsRest t).length + 5 < fuel →
      parseFields fuel
        (quoteC :: (encStr k ++ (quoteC :: ':' :: ' ' ::
          (encVal v ++ (encFieldsRest t ++ (rbraceC :: rest)))))) =
        some (JsonObj.cons k v t, rest)) := by
  intro fuel
  induction fuel with
  | zero => refine ⟨?_, ?_, ?_⟩ <;> (intros; omega)
  | succ f ih =>
    obtain ⟨ihP, ihQ, ihR⟩ := ih
    refine ⟨?_, ?_, ?_⟩
    · intro v rest hlen hnd
      cases v with
      | null =>
        simp only [encVal, List.cons_append, List.nil_append]
        rw [parseVal.eq_def]
        simp +decide
      | bool b =>
        cases b with
        | true =>
          simp only [encVal, List.cons_append, List.nil_append]
          rw [parseVal.eq_def]
          simp +decide
        | false =>
          simp only [encVal, List.cons_append, List.nil_append]
          rw [parseVal.eq_def]
          simp +decide
      | num i =>
        obtain ⟨c, cs, hds, hc⟩ := encInt_head i
        have hchain : ¬ c = quoteC ∧ ¬ c = '[' ∧ ¬ c = lbraceC ∧ ¬ c = 'n' ∧
            ¬ c = 't' ∧ ¬ c = 'f' := by
          rcases hc with hc | hc
          · subst hc
            exact ⟨by decide, by decide, by decide, by decide, by decide, by decide⟩
          · exact digit_ne_specials c hc
        simp only [encVal]
        rw [hds]
        simp only [List.cons_append]
        rw [parseVal_num f c (cs ++ rest) hchain.1 hchain.2.1 hchain.2.2.1
          hchain.2.2.2.1 hchain.2.2.2.2.1 hchain.2.2.2.2.2]
        rw [show c :: (cs ++ rest) = encInt i ++ rest from by rw [hds]; simp]
        rw [parseNum_encInt i rest hnd]
        rfl
      | str s =>
        simp only [encVal, List.cons_append, List.append_assoc, List.singleton_append]
        rw [parseVal.eq_def]
        simp only [encVal, List.length_cons, List.length_append,
          List.length_singleton] at hlen
        simp +decide
        rw [parseStr_enc s f rest (by omega)]
      | arr xs =>
        cases xs with
        | nil =>
          simp only [encVal, List.cons_append, List.nil_append]
          rw [parseVal.eq_def]
          simp +decide
        | cons h t =>
          simp only [encVal, List.cons_append, List.append_assoc,
            List.singleton_append, List.nil_append]
          rw [parseVal_arr_cons f _ (by
            obtain ⟨c, cs, hh, hne⟩ := encVal_head h
            exact ⟨c, cs ++ (encItemsRest t ++ (']' :: rest)), by rw [hh]; simp, hne⟩)]
          simp only [encVal, List.length_cons, List.length_append,
            List.length_singleton] at hlen
          rw [ihQ h t rest (by omega)]
          rfl
      | obj xs =>
        cases xs with
        | nil =>
          simp only [encVal, List.cons_append, List.nil_append]
          rw [parseVal.eq_def]
          simp +decide
        | cons k v t =>
          simp only [encVal, List.cons_append, List.append_assoc,
            List.singleton_append, List.nil_append]
          rw [parseVal_obj_cons f _ ⟨quoteC, _, rfl, by decide⟩]
          simp only [encVal, List.length_cons, List.length_append,
            List.length_singleton] at hlen
          rw [ihR k v t rest (by omega)]
          rfl
    · intro h t rest hlen
      cases t with
      | nil =>
        simp only [encItemsRest, List.length_nil] at hlen
        simp only [encItemsRest, List.nil_append]
        exact parseItems_last f _ h rest (ihP h (']' :: rest) (by omega) (by rfl))
      | cons h2 t2 =>
        simp only [encItemsRest, List.length_cons, List.length_append] at hlen
        simp only [encItemsRest, List.cons_append, List.append_assoc, List.nil_append]
        rw [parseItems_more f _ h _ (ihP h _ (by omega) (by rfl))]
        rw [ihQ h2 t2 rest (by omega)]
        rfl
    · intro k v t rest hlen
      cases t with
      | nil =>
        simp only [encFieldsRest, List.length_nil] at hlen
        simp only [encFieldsRest, List.nil_append]
        exact parseFields_last f k _ v rest (by omega) (ihP v (rbraceC :: rest) (by omega) (by rfl))
      | cons k2 v2 t2 =>
        simp only [encFieldsRest, List.length_cons, List.length_append] at hlen
        simp only [encFieldsRest, List.cons_append, List.append_assoc, List.nil_append]
        rw [parseFields_more f k _ v _ (by omega) (ihP v _ (by omega) (by rfl))]
        rw [ihR k2 v2 t2 rest (by omega)]
        rfl

/-- `json.loads` inverts `json.dumps` on every JSON value. -/
theorem loads_encVal (v : Json) : loads (encVal v) = some v := by
  have hP := (parse_enc_main ((encVal v).length + 1)).1 v [] (by omega) (by rfl)
  rw [List.append_nil] at hP
  unfold loads
  rw [hP]

/-! ## History-store lemmas -/

theorem insertDescTs_all_gt (r : Row) :
    ∀ m, (∀ s ∈ m, ¬ s.ts ≤ r.ts) → insertDescTs r m = m ++ [r] := by
  intro m
  induction m with
  | nil => intro _; rfl
  | cons s m ih =>
    intro hm
    rw [insertDescTs, if_neg (hm s (List.mem_cons_self _ _))]
    rw [ih fun x hx => hm x (List.mem_cons_of_mem _ hx)]
    rfl

theorem sortDescTs_strict :
    ∀ l : List Row, List.Pairwise (fun a b => a.ts < b.ts) l →
      sortDescTs l = l.reverse := by
  intro l
  induction l with
  | nil => intro _; rfl
  | cons r l ih =>
    intro hp
    rw [sortDescTs, ih hp.of_cons]
    rw [insertDescTs_all_gt r _ (by
      intro s hs
      have : s ∈ l := by simpa using hs
      have := (List.pairwise_cons.1 hp).1 s this
      omega)]
    simp

theorem sortDescTs_append_newest (r : Row) :
    ∀ l : List Row, (∀ x ∈ l, x.ts < r.ts) →
      sortDescTs (l ++ [r]) = r :: sortDescTs l := by
  intro l
  induction l with
  | nil => intro _; rfl
  | cons a l ih =>
    intro hl
    rw [List.cons_append, sortDescTs, ih fun x hx => hl x (List.mem_cons_of_mem _ hx)]
    rw [insertDescTs, if_neg (by
      have := hl a (List.mem_cons_self _ _)
      omega)]
    rw [sortDescTs]

theorem parseRows_cons_none (r : Row) (l : List Row) (h : loads r.parts = none) :
    parseRows (r :: l) = none := by
  simp only [parseRows, h]

theorem parseRows_cons_some (r : Row) (l : List Row) (p : Json)
    (h : loads r.parts = some p) :
    parseRows (r :: l) = (parseRows l).map fun es => ((r.role, p) : Entry) :: es := by
  simp only [parseRows, h]
  rfl

theorem parseRows_append :
    ∀ l1 l2 : List Row, parseRows (l1 ++ l2) =
      (parseRows l1).bind fun e1 => (parseRows l2).map fun e2 => e1 ++ e2 := by
  intro l1
  induction l1 with
  | nil =>
    intro l2
    simp only [List.nil_append, parseRows]
    cases parseRows l2 <;> rfl
  | cons r l ih =>
    intro l2
    rw [List.cons_append]
    cases hl : loads r.parts with
    | none =>
      rw [parseRows_cons_none r _ hl, parseRows_cons_none r _ hl]
      rfl
    | some p =>
      rw [parseRows_cons_some r _ p hl, parseRows_cons_some r _ p hl, ih l2]
      cases parseRows l <;> cases parseRows l2 <;> rfl

theorem parseRows_length :
    ∀ (l : List Row) (es : List Entry), parseRows l = some es → es.length = l.length := by
  intro l
  induction l with
  | nil =>
    intro es h
    simp only [parseRows] at h
    cases h
    rfl
  | cons r l ih =>
    intro es h
    cases hl : loads r.parts with
    | none =>
      rw [parseRows_cons_none r _ hl] at h
      cases h
    | some p =>
      rw [parseRows_cons_some r _ p hl] at h
      cases hp : parseRows l with
      | none =>
        rw [hp] at h
        cases h
      | some es2 =>
        rw [hp] at h
        simp at h
        subst h
        simp [ih es2 hp]

/-! ## Lemmas about append sequences -/

theorem foldAppends_history (u : Int) :
    ∀ (items : List (String × JsonList × Nat)) (db : DB),
      (foldAppends db u items).history = db.history ++ buildRows db.nextId u items ∧
      (foldAppends db u items).settings = db.settings ∧
      (foldAppends db u items).nextId = db.nextId + items.length := by
  intro items
  induction items with
  | nil => intro db; simp [foldAppends, buildRows]
  | cons it items ih =>
    intro db
    obtain ⟨h1, h2, h3⟩ := ih (add_message_to_history it.2.2 u it.1 it.2.1 db)
    refine ⟨?_, ?_, ?_⟩
    · rw [foldAppends, h1]
      simp [add_message_to_history, buildRows]
    · rw [foldAppends, h2]
      rfl
    · rw [foldAppends, h3]
      simp [add_message_to_history]
      omega

theorem buildRows_filter (u : Int) :
    ∀ (items : List (String × JsonList × Nat)) (n : Nat),
      (buildRows n u items).filter (fun r => r.user == u) = buildRows n u items := by
  intro items
  induction items with
  | nil => intro n; rfl
  | cons it items ih =>
    intro n
    simp only [buildRows, List.filter_cons]
    rw [if_pos (by simp)]
    rw [ih (n + 1)]

theorem buildRows_mem (u : Int) :
    ∀ (items : List (String × JsonList × Nat)) (n : Nat) (r : Row),
      r ∈ buildRows n u items → ∃ it ∈ items, r.ts = it.2.2 := by
  intro items
  induction items with
  | nil =>
    intro n r hr
    cases hr
  | cons it items ih =>
    intro n r hr
    rw [buildRows] at hr
    rcases List.mem_cons.1 hr with hr | hr
    · exact ⟨it, List.mem_cons_self _ _, by rw [hr]⟩
    · obtain ⟨it3, h3, h4⟩ := ih (n + 1) r hr
      exact ⟨it3, List.mem_cons_of_mem _ h3, h4⟩

theorem buildRows_pairwise (u : Int) :
    ∀ (items : List (String × JsonList × Nat)) (n : Nat),
      List.Pairwise (fun a b => a.2.2 < b.2.2) items →
      List.Pairwise (fun a b : Row => a.ts < b.ts) (buildRows n u items) := by
  intro items
  induction items with
  | nil =>
    intro n _
    exact List.Pairwise.nil
  | cons it items ih =>
    intro n hp
    rw [buildRows]
    refine List.pairwise_cons.2 ⟨?_, ih (n + 1) hp.of_cons⟩
    intro r hr
    obtain ⟨it2, h2, h3⟩ := buildRows_mem u items (n + 1) r hr
    have := (List.pairwise_cons.1 hp).1 it2 h2
    simp only [h3]
    exact this

theorem buildRows_length (u : Int) :
    ∀ (items : List (String × JsonList × Nat)) (n : Nat),
      (buildRows n u items).length = items.length := by
  intro items
  induction items with
  | nil => intro n; rfl
  | cons it items ih =>
    intro n
    simp [buildRows, ih (n + 1)]

theorem buildRows_drop (u : Int) :
    ∀ (items : List (String × JsonList × Nat)) (n d : Nat),
      (buildRows n u items).drop d = buildRows (n + d) u (items.drop d) := by
  intro items
  induction items with
  | nil => intro n d; simp [buildRows]
  | cons it items ih =>
    intro n d
    cases d with
    | zero => simp
    | succ d =>
      rw [buildRows, List.drop_succ_cons, List.drop_succ_cons, ih (n + 1) d]
      congr 1
      omega

theorem parseRows_buildRows (u : Int) :
    ∀ (items : List (String × JsonList × Nat)) (n : Nat),
      parseRows (buildRows n u items) =
        some (items.map fun it => ((it.1, Json.arr it.2.1) : Entry)) := by
  intro items
  induction items with
  | nil => intro n; rfl
  | cons it items ih =>
    intro n
    rw [buildRows, parseRows_cons_some _ _ (Json.arr it.2.1) (loads_encVal _), ih (n + 1)]
    rfl

theorem parseRows_drop (l : List Row) (es : List Entry) (h : parseRows l = some es) :
    ∀ d, parseRows (l.drop d) = some (es.drop d) := by
  intro d
  have hsplit : l = l.take d ++ l.drop d := (List.take_append_drop d l).symm
  rw [hsplit, parseRows_append] at h
  cases h1 : parseRows (l.take d) with
  | none =>
    rw [h1] at h
    cases h
  | some e1 =>
    rw [h1] at h
    cases h2 : parseRows (l.drop d) with
    | none =>
      rw [h2] at h
      cases h
    | some e2 =>
      rw [h2] at h
      simp at h
      subst h
      have hlen1 : e1.length = (l.take d).length := parseRows_length _ _ h1
      by_cases hd : d ≤ l.length
      · have : e1.length = d := by
          rw [hlen1]
          simp [hd]
        rw [← this, List.drop_left]
      · have hl2 : l.drop d = [] := by
          apply List.drop_eq_nil_of_le
          omega
        rw [hl2] at h2
        simp only [parseRows] at h2
        have he2 : e2 = [] := by
          cases h2
          rfl
        have : (e1 ++ e2).length ≤ d := by
          have := parseRows_length _ _ h1
          simp [he2, this]
        rw [List.drop_eq_nil_of_le this, he2]

/-! ## Poll-loop lemmas -/

theorem pollLoop_effs_sleep (getF : Nat → Except Unit String) (s : Nat) :
    ∀ (fuel k : Nat) (cur : String) (out : Except Unit String) (effs : List Eff),
      pollLoop getF s fuel k cur = some (out, effs) → ∀ e ∈ effs, e = Eff.sleepEff s := by
  intro fuel
  induction fuel with
  | zero =>
    intro k cur out effs h e he
    rw [pollLoop] at h
    by_cases hc : cur = "PROCESSING"
    · rw [if_pos hc] at h
      cases h
    · rw [if_neg hc] at h
      cases h
      cases he
  | succ f ih =>
    intro k cur out effs h e he
    rw [pollLoop] at h
    by_cases hc : cur = "PROCESSING"
    · rw [if_pos hc] at h
      cases hg : getF k with
      | error err =>
        simp only [hg] at h
        cases h
        simp at he
        exact he
      | ok next =>
        simp only [hg] at h
        cases hp : pollLoop getF s f (k + 1) next with
        | none =>
          rw [hp] at h
          cases h
        | some pr =>
          rw [hp] at h
          simp only [Option.map_some'] at h
          cases h
          rcases List.mem_cons.1 he with he2 | he2
          · exact he2
          · exact ih (k + 1) next pr.1 pr.2 (by rw [hp]) e he2
    · rw [if_neg hc] at h
      cases h
      cases he

theorem pollLoop_stuck (s : Nat) :
    ∀ (fuel k : Nat), pollLoop procForever s fuel k "PROCESSING" = none := by
  intro fuel
  induction fuel with
  | zero =>
    intro k
    rw [pollLoop]
    rw [if_pos rfl]
  | succ f ih =>
    intro k
    rw [pollLoop, if_pos rfl]
    show (pollLoop procForever s f (k + 1) "PROCESSING").map _ = none
    rw [ih (k + 1)]
    rfl

theorem pollLoop_not_processing (getF : Nat → Except Unit String) (s fuel k : Nat)
    (cur : String) (h : ¬ cur = "PROCESSING") :
    pollLoop getF s fuel k cur = some (.ok cur, []) := by
  cases fuel with
  | zero => rw [pollLoop, if_neg h]
  | succ f => rw [pollLoop, if_neg h]

theorem pollLoop_procUntil (s : Nat) :
    ∀ (fuel m k : Nat), k ≤ m → m - k < fuel →
      pollLoop (procUntil m) s fuel k "PROCESSING" =
        some (.ok "ACTIVE", List.replicate (m - k + 1) (Eff.sleepEff s)) := by
  intro fuel
  induction fuel with
  | zero =>
    intro m k _ h
    omega
  | succ f ih =>
    intro m k hk hf
    rw [pollLoop, if_pos rfl]
    by_cases hkm : k < m
    · show (pollLoop (procUntil m) s f (k + 1) (if k < m then "PROCESSING" else "ACTIVE")).map _ = _
      rw [if_pos hkm]
      rw [ih m (k + 1) (by omega) (by omega)]
      simp only [Option.map_some']
      have : m - k = m - (k + 1) + 1 := by omega
      rw [this]
      simp [List.replicate_succ]
    · show (pollLoop (procUntil m) s f (k + 1) (if k < m then "PROCESSING" else "ACTIVE")).map _ = _
      rw [if_neg hkm]
      rw [pollLoop_not_processing (procUntil m) s f (k + 1) "ACTIVE" (by decide)]
      have : m - k + 1 = 1 := by omega
      rw [this]
      rfl

/-! ## Cooldown-map lemmas -/

theorem lookupD_update (m : List (Int × ℤ)) (u : Int) (now : ℤ) :
    lookupD (update_user_timestamp now u m) u = now := by
  simp [lookupD, update_user_timestamp, List.lookup]

theorem lookupD_update_ne (m : List (Int × ℤ)) (u u2 : Int) (now : ℤ) (h : ¬ u2 = u) :
    lookupD (update_user_timestamp now u m) u2 = lookupD m u2 := by
  simp only [lookupD, update_user_timestamp, List.lookup]
  have hb : (u2 == u) = false := by simpa using h
  rw [hb]

/-! ## Media-handler cleanup lemmas -/

theorem runFinally_cleanup (B : MediaBody)
    (hB : ∀ a, Eff.deleteAsset a ∉ B.effs) :
    (runFinally B).fileOnDisk = false ∧ (runFinally B).assetLive = none ∧
    (∀ a, (runFinally B).assetObtained = some a →
      (runFinally B).effs.count (Eff.deleteAsset a) = 1) ∧
    ((runFinally B).fileCreated = true → Eff.unlinkFile ∈ (runFinally B).effs) := by
  refine ⟨rfl, rfl, ?_, ?_⟩
  · intro a ha
    simp only [runFinally] at ha ⊢
    rw [ha]
    rw [List.count_append, List.count_append]
    rw [List.count_eq_zero.2 (hB a)]
    cases B.fileOnDisk <;> simp [List.count_cons]
  · intro hc
    simp only [runFinally] at hc ⊢
    rw [hc]
    simp

theorem delete_notin_effs1 (cfg : MediaCfg) (pollEffs : List Eff)
    (hsleep : ∀ e ∈ pollEffs, e = Eff.sleepEff cfg.sleepT) (tail : List Eff)
    (htail : ∀ a, Eff.deleteAsset a ∉ tail) (a : Nat) :
    Eff.deleteAsset a ∉
      ((match cfg.preReply with | some m => [Eff.reply m] | none => []) ++
        [Eff.downloadCall, Eff.uploadCall] ++ pollEffs ++ tail) := by
  intro hmem
  simp only [List.mem_append] at hmem
  rcases hmem with ((h0 | h1) | hp) | ht
  · rcases hm : cfg.preReply with _ | m <;> rw [hm] at h0 <;> simp at h0
  · simp at h1
  · have := hsleep _ hp
    simp at this
  · exact htail a ht

theorem handleMedia_cleanup (cfg : MediaCfg) (fuel : Nat) (env : MediaEnv)
    (st : BotState) (uid : Int) (r : MediaResult)
    (h : handleMedia cfg fuel env st uid = some r) :
    r.fileOnDisk = false ∧ r.assetLive = none ∧
    (∀ a, r.assetObtained = some a → r.effs.count (Eff.deleteAsset a) = 1) ∧
    (r.fileCreated = true → Eff.unlinkFile ∈ r.effs) := by
  by_cases hcd : is_user_on_cooldown env.now st.last uid cfg.category = true
  · simp only [handleMedia, hcd, if_true] at h
    cases h
    refine ⟨rfl, rfl, ?_, ?_⟩
    · intro a ha
      cases ha
    · intro hc
      cases hc
  · have hcd2 : is_user_on_cooldown env.now st.last uid cfg.category = false := by
      simpa using hcd
    by_cases hsz : env.fileSize > MAX_FILE_SIZE
    · simp only [handleMedia, hcd2, hsz, if_true, Bool.false_eq_true, if_false] at h
      cases h
      exact runFinally_cleanup _ (by intro a ha; simp at ha)
    · by_cases hma : env.modelAvailable = false
      · simp only [handleMedia, hcd2, hsz, hma, Bool.false_eq_true, if_false, if_true] at h
        cases h
        exact runFinally_cleanup _ (by intro a ha; simp at ha)
      · cases hdl : env.download with
        | error e =>
          simp only [handleMedia, hcd2, hsz, hma, hdl, Bool.false_eq_true, if_false] at h
          cases h
          exact runFinally_cleanup _ (by
            intro a ha
            rcases hm : cfg.preReply with _ | m <;> rw [hm] at ha <;> simp at ha)
        | ok uu =>
          cases hup : env.uploadRes with
          | error e =>
            simp only [handleMedia, hcd2, hsz, hma, hdl, hup, Bool.false_eq_true,
              if_false] at h
            cases h
            exact runFinally_cleanup _ (by
              intro a ha
              rcases hm : cfg.preReply with _ | m <;> rw [hm] at ha <;> simp at ha)
          | ok pr =>
            obtain ⟨aid, state0⟩ := pr
            cases hpoll : pollLoop env.getFile cfg.sleepT fuel 0 state0 with
            | none =>
              simp only [handleMedia, hcd2, hsz, hma, hdl, hup, hpoll,
                Bool.false_eq_true, if_false] at h
              cases h
            | some po =>
              obtain ⟨outcome, pollEffs⟩ := po
              have hsleep := pollLoop_effs_sleep env.getFile cfg.sleepT fuel 0 state0
                outcome pollEffs hpoll
              cases outcome with
              | error e =>
                simp only [handleMedia, hcd2, hsz, hma, hdl, hup, hpoll,
                  Bool.false_eq_true, if_false] at h
                cases h
                exact runFinally_cleanup _ (delete_notin_effs1 cfg pollEffs hsleep _
                  (by intro a ha; simp at ha))
              | ok finalState =>
                by_cases hfs : finalState = "FAILED"
                · simp only [handleMedia, hcd2, hsz, hma, hdl, hup, hpoll, hfs,
                    Bool.false_eq_true, if_false, if_true] at h
                  cases h
                  exact runFinally_cleanup _ (delete_notin_effs1 cfg pollEffs hsleep _
                    (by intro a ha; simp at ha))
                · cases hgh : get_history st.db uid with
                  | none =>
                    simp only [handleMedia, hcd2, hsz, hma, hdl, hup, hpoll, hfs,
                      Bool.false_eq_true, if_false, hgh] at h
                    cases h
                    exact runFinally_cleanup _ (delete_notin_effs1 cfg pollEffs hsleep _
                      (by intro a ha; simp at ha))
                  | some hist =>
                    cases hinf : env.inference hist with
                    | error e =>
                      simp only [handleMedia, hcd2, hsz, hma, hdl, hup, hpoll, hfs,
                        Bool.false_eq_true, if_false, hgh, hinf] at h
                      cases h
                      exact runFinally_cleanup _ (delete_notin_effs1 cfg pollEffs hsleep _
                        (by intro a ha; simp at ha))
                    | ok resp =>
                      simp only [handleMedia, hcd2, hsz, hma, hdl, hup, hpoll, hfs,
                        Bool.false_eq_true, if_false, hgh, hinf] at h
                      cases h
                      exact runFinally_cleanup _ (delete_notin_effs1 cfg pollEffs hsleep _
                        (by intro a ha; simp at ha))

/-! ## Claims -/

/-- C2: for every execution of a media request (voice or video-note) that
the handler completes, on every exit path — success, remote status
`FAILED`, inference-call failure, or any injected failure after upload
began — the local temporary file is no longer on disk (it is unlinked
whenever it was created), and the remote asset identifier, when one was
ever obtained, is deleted exactly once before the handler returns. -/
theorem media_cleanup_on_every_exit :
    (∀ (fuel : Nat) (env : MediaEnv) (st : BotState) (uid : Int) (r : MediaResult),
      handle_voice fuel env st uid = some r →
      r.fileOnDisk = false ∧ r.assetLive = none ∧
      (∀ a, r.assetObtained = some a → r.effs.count (Eff.deleteAsset a) = 1) ∧
      (r.fileCreated = true → Eff.unlinkFile ∈ r.effs)) ∧
    (∀ (fuel : Nat) (env : MediaEnv) (st : BotState) (uid : Int) (r : MediaResult),
      handle_video_note fuel env st uid = some r →
      r.fileOnDisk = false ∧ r.assetLive = none ∧
      (∀ a, r.assetObtained = some a → r.effs.count (Eff.deleteAsset a) = 1) ∧
      (r.fileCreated = true → Eff.unlinkFile ∈ r.effs)) := by
  constructor
  · intro fuel env st uid r h
    exact handleMedia_cleanup voiceCfg fuel env st uid r h
  · intro fuel env st uid r h
    exact handleMedia_cleanup videoCfg fuel env st uid r h

/-- Witness for C2: a concrete successful voice request; both resources are
released at the end. -/
theorem media_cleanup_on_every_exit_witness :
    handle_voice 1 okEnv st0 1 = some okVoiceResult ∧
    okVoiceResult.fileOnDisk = false ∧ okVoiceResult.assetLive = none ∧
    okVoiceResult.effs.count (Eff.deleteAsset 3) = 1 ∧
    Eff.unlinkFile ∈ okVoiceResult.effs := by
  have h : handle_voice 1 okEnv st0 1 = some okVoiceResult := by decide
  have hc := media_cleanup_on_every_exit.1 1 okEnv st0 1 okVoiceResult h
  exact ⟨h, hc.1, hc.2.1, hc.2.2.1 3 (by rfl), hc.2.2.2 (by rfl)⟩

/-- C9: in the `PROCESSING` state the handlers poll at a fixed per-kind
interval (2 seconds for voice, 5 for video-note, audio shorter than video)
until the state leaves `PROCESSING`, with no attempt ceiling: on a remote
asset that reports `PROCESSING` forever the loop never terminates (no
amount of fuel completes the handler), while an asset that needs `m + 1`
polls yields exactly `m + 1` fixed-interval sleeps. -/
theorem poll_fixed_interval_unbounded :
    (∀ fuel : Nat, handle_voice fuel stuckEnv st0 1 = none) ∧
    (∀ fuel : Nat, handle_video_note fuel stuckEnv st0 1 = none) ∧
    (∀ m : Nat, pollLoop (procUntil m) voiceCfg.sleepT (m + 1) 0 "PROCESSING" =
      some (.ok "ACTIVE", List.replicate (m + 1) (Eff.sleepEff 2))) ∧
    (∀ m : Nat, pollLoop (procUntil m) videoCfg.sleepT (m + 1) 0 "PROCESSING" =
      some (.ok "ACTIVE", List.replicate (m + 1) (Eff.sleepEff 5))) ∧
    voiceCfg.sleepT = 2 ∧ videoCfg.sleepT = 5 ∧ voiceCfg.sleepT < videoCfg.sleepT := by
  refine ⟨?_, ?_, ?_, ?_, rfl, rfl, by decide⟩
  · intro fuel
    simp only [handle_voice, handleMedia]
    rw [if_neg (by decide), if_neg (by decide)]
    simp only [stuckEnv]
    rw [pollLoop_stuck]
    rfl
  · intro fuel
    simp only [handle_video_note, handleMedia]
    rw [if_neg (by decide), if_neg (by decide)]
    simp only [stuckEnv]
    rw [pollLoop_stuck]
    rfl
  · intro m
    have := pollLoop_procUntil voiceCfg.sleepT (m + 1) m 0 (by omega) (by omega)
    simpa using this
  · intro m
    have := pollLoop_procUntil videoCfg.sleepT (m + 1) m 0 (by omega) (by omega)
    simpa using this

/-- C4 counterexample: a rejected request produces no reply at all — the
handler returns with an empty effect list (state unchanged), so no
"please wait" signal is sent to the user. -/
theorem rejected_request_no_reply :
    is_user_on_cooldown 1 st0.last 42 "text" = true ∧
    handle_message 1 0 true (fun _ _ => .ok "resp") (.ok "fact") st0 42 "привет" =
      (st0, []) := by
  exact ⟨by decide, by decide⟩

/-- C4 (amended): when the rate limiter rejects a request, the handler
drops it silently — no reply of any kind is sent (only a server-side log
line), the state is untouched, the history is not read, the inference
service is not called, and the timestamp is not updated. -/
theorem rejected_request_silent_drop :
    (∀ (now : ℤ) (nowTs : Nat) (mav : Bool)
       (inference : List Entry → String → Except Unit String)
       (factRes : Except Bool String) (st : BotState) (uid : Int) (text : String),
      ¬ text = "❓ Задать вопрос" → ¬ text = "💡 Случайный факт" → ¬ text = "⚙️ Настройки" →
      is_user_on_cooldown now st.last uid "text" = true →
      handle_message now nowTs mav inference factRes st uid text = (st, [])) ∧
    (∀ (fuel : Nat) (env : MediaEnv) (st : BotState) (uid : Int),
      is_user_on_cooldown env.now st.last uid "voice" = true →
      handle_voice fuel env st uid =
        some ⟨st, [], false, none, none, false⟩) ∧
    (∀ (fuel : Nat) (env : MediaEnv) (st : BotState) (uid : Int),
      is_user_on_cooldown env.now st.last uid "video" = true →
      handle_video_note fuel env st uid =
        some ⟨st, [], false, none, none, false⟩) := by
  refine ⟨?_, ?_, ?_⟩
  · intro now nowTs mav inference factRes st uid text h1 h2 h3 hcd
    simp only [handle_message, h1, h2, h3, hcd, if_true, if_false]
  · intro fuel env st uid hcd
    simp only [handle_voice, handleMedia, voiceCfg, hcd, if_true]
  · intro fuel env st uid hcd
    simp only [handle_video_note, handleMedia, videoCfg, hcd, if_true]

/-- Witness for the amended C4: concrete rejected text, voice and video
requests are silently dropped. -/
theorem rejected_request_silent_drop_witness :
    handle_message 1 0 true (fun _ _ => .ok "r") (.ok "f") st0 7 "hello" = (st0, []) ∧
    handle_voice 5 { okEnv with now := 1 } st0 7 = some ⟨st0, [], false, none, none, false⟩ ∧
    handle_video_note 5 { okEnv with now := 1 } st0 7 =
      some ⟨st0, [], false, none, none, false⟩ := by
  refine ⟨?_, ?_, ?_⟩
  · exact rejected_request_silent_drop.1 1 0 true _ _ st0 7 "hello"
      (by decide) (by decide) (by decide) (by decide)
  · exact rejected_request_silent_drop.2.1 5 _ st0 7 (by decide)
  · exact rejected_request_silent_drop.2.2 5 _ st0 7 (by decide)

/-- C5: if the inference call raises, the handler appends nothing — the
database (hence the user window) is exactly as before — and the user gets
the generic failure reply. -/
theorem inference_failure_preserves_history
    (now : ℤ) (nowTs : Nat) (inference : List Entry → String → Except Unit String)
    (factRes : Except Bool String) (st : BotState) (uid : Int) (text : String)
    (hist : List Entry) (e : Unit)
    (h1 : ¬ text = "❓ Задать вопрос") (h2 : ¬ text = "💡 Случайный факт")
    (h3 : ¬ text = "⚙️ Настройки")
    (hcd : is_user_on_cooldown now st.last uid "text" = false)
    (hh : get_history st.db uid = some hist)
    (hinf : inference hist text = .error e) :
    (handle_message now nowTs true inference factRes st uid text).1.db = st.db ∧
    (handle_message now nowTs true inference factRes st uid text).2 =
      [.historyRead, .inferCall, .reply .procErr] ∧
    get_history (handle_message now nowTs true inference factRes st uid text).1.db uid =
      get_history st.db uid := by
  have hrun : handle_message now nowTs true inference factRes st uid text =
      ({ st with last := update_user_timestamp now uid st.last },
        [.historyRead, .inferCall, .reply .procErr]) := by
    simp only [handle_message, h1, h2, h3, hcd, Bool.false_eq_true, if_false, hh, hinf]
    rw [if_neg (by decide : ¬ (true = false))]
  rw [hrun]
  exact ⟨rfl, rfl, rfl⟩

/-- Witness for C5: a concrete failing inference call leaves the fresh
database unchanged and replies with the generic failure. -/
theorem inference_failure_preserves_history_witness :
    (handle_message 100 0 true (fun _ _ => .error ()) (.ok "f") st0 42 "hi").1.db = st0.db ∧
    (handle_message 100 0 true (fun _ _ => .error ()) (.ok "f") st0 42 "hi").2 =
      [.historyRead, .inferCall, .reply .procErr] ∧
    get_history (handle_message 100 0 true (fun _ _ => .error ()) (.ok "f") st0 42 "hi").1.db 42 =
      get_history st0.db 42 :=
  inference_failure_preserves_history 100 0 (fun _ _ => .error ()) (.ok "f") st0 42 "hi" [] ()
    (by decide) (by decide) (by decide) (by decide) (by decide) (by rfl)

/-- C6: media whose declared size exceeds the 20 MiB ceiling is rejected
with the too-large reply before anything else happens: no download, no
upload call, no temp file, no remote asset, and even the cooldown
timestamp is left untouched. -/
theorem oversize_media_rejected_before_upload :
    (∀ (fuel : Nat) (env : MediaEnv) (st : BotState) (uid : Int),
      is_user_on_cooldown env.now st.last uid "voice" = false →
      env.fileSize > MAX_FILE_SIZE →
      handle_voice fuel env st uid =
        some ⟨st, [Eff.reply Msg.tooLargeVoice], false, none, none, false⟩ ∧
      Eff.uploadCall ∉ [Eff.reply Msg.tooLargeVoice] ∧
      Eff.downloadCall ∉ [Eff.reply Msg.tooLargeVoice]) ∧
    (∀ (fuel : Nat) (env : MediaEnv) (st : BotState) (uid : Int),
      is_user_on_cooldown env.now st.last uid "video" = false →
      env.fileSize > MAX_FILE_SIZE →
      handle_video_note fuel env st uid =
        some ⟨st, [Eff.reply Msg.tooLargeVideo], false, none, none, false⟩ ∧
      Eff.uploadCall ∉ [Eff.reply Msg.tooLargeVideo] ∧
      Eff.downloadCall ∉ [Eff.reply Msg.tooLargeVideo]) := by
  constructor
  · intro fuel env st uid hcd hsz
    refine ⟨?_, by decide, by decide⟩
    simp only [handle_voice, handleMedia, voiceCfg, hcd, Bool.false_eq_true, if_false,
      hsz, if_true]
    rfl
  · intro fuel env st uid hcd hsz
    refine ⟨?_, by decide, by decide⟩
    simp only [handle_video_note, handleMedia, videoCfg, hcd, Bool.false_eq_true, if_false,
      hsz, if_true]
    rfl

/-- Witness for C6: a concrete 20 MiB + 1 voice and video-note request is
rejected with only the too-large reply. -/
theorem oversize_media_rejected_before_upload_witness :
    (handle_voice 3 bigEnv st0 8 =
      some ⟨st0, [Eff.reply Msg.tooLargeVoice], false, none, none, false⟩) ∧
    (handle_video_note 3 bigEnv st0 8 =
      some ⟨st0, [Eff.reply Msg.tooLargeVideo], false, none, none, false⟩) :=
  ⟨(oversize_media_rejected_before_upload.1 3 bigEnv st0 8 (by decide) (by decide)).1,
   (oversize_media_rejected_before_upload.2 3 bigEnv st0 8 (by decide) (by decide)).1⟩

/-- C8 counterexample: with the inference backend disabled (`model` is
`None`), an admitted fact request still updates the cooldown timestamp —
it jumps from 0 to the request time 100 although the request is aborted
with no inference call and no reply. -/
theorem disabled_backend_still_marks :
    is_user_on_cooldown 100 st0.last 42 "fact" = false ∧
    lookupD st0.last 42 = 0 ∧
    random_fact 100 false (.ok "x") st0 42 =
      ({ st0 with last := update_user_timestamp 100 42 st0.last }, []) ∧
    lookupD (random_fact 100 false (.ok "x") st0 42).1.last 42 = 100 := by
  refine ⟨by decide, by decide, by decide, by decide⟩

/-- C8 (amended): the cooldown timestamp is updated as the first step of
the try-block, before the backend-availability check: an admitted request
that is aborted because the model is unavailable still gets the timestamp
recorded, for both the fact handler and the plain-text handler. -/
theorem mark_precedes_backend_check :
    (∀ (now : ℤ) (factRes : Except Bool String) (st : BotState) (uid : Int),
      is_user_on_cooldown now st.last uid "fact" = false →
      random_fact now false factRes st uid =
        ({ st with last := update_user_timestamp now uid st.last }, [])) ∧
    (∀ (now : ℤ) (nowTs : Nat) (inference : List Entry → String → Except Unit String)
       (factRes : Except Bool String) (st : BotState) (uid : Int) (text : String),
      ¬ text = "❓ Задать вопрос" → ¬ text = "💡 Случайный факт" → ¬ text = "⚙️ Настройки" →
      is_user_on_cooldown now st.last uid "text" = false →
      handle_message now nowTs false inference factRes st uid text =
        ({ st with last := update_user_timestamp now uid st.last }, [])) := by
  constructor
  · intro now factRes st uid hcd
    simp only [random_fact, hcd, Bool.false_eq_true, if_false]
    simp only [if_true]
  · intro now nowTs inference factRes st uid text h1 h2 h3 hcd
    simp only [handle_message, h1, h2, h3, hcd, Bool.false_eq_true, if_false]
    simp only [if_true]

/-- Witness for the amended C8: concrete aborted requests still record
time 100 for user 42. -/
theorem mark_precedes_backend_check_witness :
    random_fact 100 false (.ok "x") st0 42 =
      ({ st0 with last := update_user_timestamp 100 42 st0.last }, []) ∧
    handle_message 100 0 false (fun _ _ => .ok "r") (.ok "x") st0 42 "hi" =
      ({ st0 with last := update_user_timestamp 100 42 st0.last }, []) :=
  ⟨mark_precedes_backend_check.1 100 (.ok "x") st0 42 (by decide),
   mark_precedes_backend_check.2 100 0 (fun _ _ => .ok "r") (.ok "x") st0 42 "hi"
     (by decide) (by decide) (by decide) (by decide)⟩

/-- C3 counterexample: the cooldown state is keyed by user id alone, not
by `(user_id, category)`.  Before any request, a voice request by user 42
at time 105 would be admitted; after a plain-text request at time 100 — a
mark in the "text" category only — the voice request at time 105 is
rejected, so marking one category changed the admission decision of
another category of the same user. -/
theorem cooldown_shared_across_categories :
    is_user_on_cooldown 105 st0.last 42 "voice" = false ∧
    is_user_on_cooldown 105
      (handle_message 100 0 true (fun _ _ => .ok "resp") (.ok "f") st0 42 "привет").1.last
      42 "voice" = true := by
  exact ⟨by decide, by decide⟩

/-- C3 (amended): the rate-limiter state is a map keyed by `user_id`
alone.  After marking user `u` at time `t`, the admission decision for
*every* category `c` of `u` is computed from that one shared timestamp —
`admit` is false exactly when `now - t < cooldown(c)` — while the
decisions of every other user are unaffected. -/
theorem cooldown_keyed_by_user_only :
    (∀ (now t : ℤ) (u : Int) (c : String) (m : List (Int × ℤ)),
      is_user_on_cooldown now (update_user_timestamp t u m) u c =
        decide (now - t < cooldownOf c)) ∧
    (∀ (now t : ℤ) (u u2 : Int) (c : String) (m : List (Int × ℤ)), ¬ u2 = u →
      is_user_on_cooldown now (update_user_timestamp t u m) u2 c =
        is_user_on_cooldown now m u2 c) := by
  constructor
  · intro now t u c m
    simp only [is_user_on_cooldown, lookupD_update]
  · intro now t u u2 c m h
    simp only [is_user_on_cooldown, lookupD_update_ne m u u2 t h]

/-- Witness for the amended C3: user 42 marked at time 100 is on cooldown
for "voice" at time 105, while user 43 is unaffected by the mark. -/
theorem cooldown_keyed_by_user_only_witness :
    is_user_on_cooldown 105 (update_user_timestamp 100 42 []) 42 "voice" =
      decide ((105 : ℤ) - 100 < cooldownOf "voice") ∧
    is_user_on_cooldown 105 (update_user_timestamp 100 42 []) 43 "voice" =
      is_user_on_cooldown 105 [] 43 "voice" :=
  ⟨cooldown_keyed_by_user_only.1 105 100 42 "voice" [],
   cooldown_keyed_by_user_only.2 105 100 42 43 "voice" [] (by decide)⟩

theorem reverse_take_reverse (l : List Row) (k : Nat) :
    (l.reverse.take k).reverse = l.drop (l.length - k) := by
  rw [← List.rtake_eq_reverse_take_reverse]
  rfl

theorem take_reverse_eq_drop (m : List Row) (k : Nat) :
    (m.take k).reverse = m.reverse.drop (m.length - k) := by
  have h := reverse_take_reverse m.reverse k
  rw [List.reverse_reverse, List.length_reverse] at h
  exact h

/-- C1 counterexample: with retention limit 1 for user 1, two appends that
share one coarse timestamp leave a window containing the *first* appended
turn, not the most recently appended one — under the scan-order-stable
model of `ORDER BY timestamp DESC`, equal timestamps break the
"most recent turns" guarantee. -/
theorem window_tie_drops_newest :
    get_history
      (add_message_to_history 5 1 "model" (textParts "b")
        (add_message_to_history 5 1 "user" (textParts "a") ⟨[], 0, [(1, 1)]⟩)) 1 =
      some [("user", Json.arr (textParts "a"))] ∧
    (("user", Json.arr (textParts "a")) : Entry) ≠ ("model", Json.arr (textParts "b")) := by
  exact ⟨by decide, by decide⟩

/-- C1 (amended): for every user and every sequence of `N` appends with
*strictly increasing* timestamps, starting from a store with no rows for
that user and a non-negative retention limit `L`, `get_history` returns
exactly the last `min(N, L)` appended turns, oldest-first, and never more
than the limit. -/
theorem window_appends_min_oldest_first
    (db0 : DB) (u : Int) (items : List (String × JsonList × Nat))
    (hemp : db0.history.filter (fun r => r.user == u) = [])
    (hmono : List.Pairwise (fun a b => a.2.2 < b.2.2) items)
    (hL : 0 ≤ get_history_limit db0.settings u) :
    get_history (foldAppends db0 u items) u =
      some ((items.drop (items.length - (get_history_limit db0.settings u).toNat)).map
        fun it => ((it.1, Json.arr it.2.1) : Entry)) ∧
    ((items.drop (items.length - (get_history_limit db0.settings u).toNat)).map
        fun it => ((it.1, Json.arr it.2.1) : Entry)).length =
      min items.length (get_history_limit db0.settings u).toNat := by
  constructor
  · obtain ⟨hh, hs, _⟩ := foldAppends_history u items db0
    simp only [get_history, hs, hh]
    rw [List.filter_append, hemp, List.nil_append, buildRows_filter]
    rw [sortDescTs_strict _ (buildRows_pairwise u items db0.nextId hmono)]
    rw [takeLimit, if_neg (by omega)]
    rw [reverse_take_reverse]
    rw [buildRows_length, buildRows_drop, parseRows_buildRows]
  · rw [List.length_map, List.length_drop]
    omega

/-- Witness for the amended C1: two appends at timestamps 0 and 1 under
the default limit 12 give back both turns, oldest-first. -/
theorem window_appends_min_oldest_first_witness :
    get_history (foldAppends ⟨[], 0, []⟩ 1
        [("user", textParts "a", 0), ("model", textParts "b", 1)]) 1 =
      some [("user", Json.arr (textParts "a")), ("model", Json.arr (textParts "b"))] ∧
    (2 : Nat) = min 2 (get_history_limit ([] : List (Int × Int)) 1).toNat := by
  have h := window_appends_min_oldest_first ⟨[], 0, []⟩ 1
    [("user", textParts "a", 0), ("model", textParts "b", 1)]
    (by rfl) (by decide) (by decide)
  constructor
  · rw [h.1]
    decide
  · decide

/-- C7 counterexample: two turns of user 7 that share a timestamp come
back in *reverse* insertion order — the query orders by timestamp alone
(`ORDER BY timestamp DESC`), the autoincrement id sequence is not used as
a tie-break, so the window is not insertion-order deterministic. -/
theorem window_tie_not_insertion_order :
    get_history
      (add_message_to_history 5 7 "model" (textParts "b")
        (add_message_to_history 5 7 "user" (textParts "a") ⟨[], 0, []⟩)) 7 =
      some [("model", Json.arr (textParts "b")), ("user", Json.arr (textParts "a"))] ∧
    ([("model", Json.arr (textParts "b")), ("user", Json.arr (textParts "a"))] :
        List Entry) ≠
      [("user", Json.arr (textParts "a")), ("model", Json.arr (textParts "b"))] := by
  exact ⟨by decide, by decide⟩

/-- C7 (amended): the window ordering is decided by the timestamp alone;
when two turns of a user share a timestamp, the id sequence is not
consulted, and under the scan-order-stable model of the SQLite sort the
tied pair appears newest-first (reverse insertion order) in the window. -/
theorem window_tie_newest_first
    (db0 : DB) (u : Int) (role1 role2 : String) (parts1 parts2 : JsonList) (T : Nat)
    (hemp : db0.history.filter (fun r => r.user == u) = [])
    (hL2 : 2 ≤ get_history_limit db0.settings u) :
    get_history (add_message_to_history T u role2 parts2
        (add_message_to_history T u role1 parts1 db0)) u =
      some [(role2, Json.arr parts2), (role1, Json.arr parts1)] := by
  simp only [get_history, add_message_to_history]
  rw [List.append_assoc]
  rw [List.filter_append, hemp, List.nil_append]
  rw [show (([⟨db0.nextId, u, role1, encVal (Json.arr parts1), T⟩] ++
      [⟨db0.nextId + 1, u, role2, encVal (Json.arr parts2), T⟩] : List Row)).filter
        (fun r => r.user == u) =
      [⟨db0.nextId, u, role1, encVal (Json.arr parts1), T⟩,
       ⟨db0.nextId + 1, u, role2, encVal (Json.arr parts2), T⟩] from by simp]
  rw [show sortDescTs [(⟨db0.nextId, u, role1, encVal (Json.arr parts1), T⟩ : Row),
        ⟨db0.nextId + 1, u, role2, encVal (Json.arr parts2), T⟩] =
      [⟨db0.nextId, u, role1, encVal (Json.arr parts1), T⟩,
       ⟨db0.nextId + 1, u, role2, encVal (Json.arr parts2), T⟩] from by
    rw [sortDescTs, sortDescTs, sortDescTs, insertDescTs, insertDescTs,
      if_pos (le_refl T)]]
  rw [takeLimit, if_neg (by omega)]
  rw [List.take_of_length_le (by
    simp only [List.length_cons, List.length_singleton, List.length_nil]
    omega)]
  rw [show ([(⟨db0.nextId, u, role1, encVal (Json.arr parts1), T⟩ : Row),
      ⟨db0.nextId + 1, u, role2, encVal (Json.arr parts2), T⟩]).reverse =
      [⟨db0.nextId + 1, u, role2, encVal (Json.arr parts2), T⟩,
       ⟨db0.nextId, u, role1, encVal (Json.arr parts1), T⟩] from by rfl]
  rw [parseRows_cons_some _ _ (Json.arr parts2) (loads_encVal _),
    parseRows_cons_some _ _ (Json.arr parts1) (loads_encVal _)]
  rfl

/-- Witness for the amended C7: a concrete tied pair, default limit. -/
theorem window_tie_newest_first_witness :
    get_history (add_message_to_history 9 2 "model" (textParts "y")
        (add_message_to_history 9 2 "user" (textParts "x") ⟨[], 0, []⟩)) 2 =
      some [("model", Json.arr (textParts "y")), ("user", Json.arr (textParts "x"))] :=
  window_tie_newest_first ⟨[], 0, []⟩ 2 "user" "model" (textParts "x") (textParts "y") 9
    (by rfl) (by decide)

/-- C10: append/read round-trip.  The JSON serialization written by
`add_message_to_history` is exactly inverted by the parse in
`get_history`: appending a turn (with a timestamp newer than all stored
turns of the user, and a positive retention limit so the new turn is
inside the window) makes the window end with an entry whose role and
parts are exactly the appended ones, the older entries shifting as the
limit requires. -/
theorem append_read_roundtrip
    (db : DB) (u : Int) (role : String) (parts : JsonList) (ts : Nat) (es : List Entry)
    (hL : 0 < get_history_limit db.settings u)
    (hnew : ∀ r ∈ db.history, r.user = u → r.ts < ts)
    (hold : get_history db u = some es) :
    loads (encVal (Json.arr parts)) = some (Json.arr parts) ∧
    get_history (add_message_to_history ts u role parts db) u =
      some (es.drop (es.length + 1 - (get_history_limit db.settings u).toNat)
        ++ ([((role, Json.arr parts))] : List Entry)) := by
  refine ⟨loads_encVal _, ?_⟩
  obtain ⟨k, hk⟩ : ∃ k, (get_history_limit db.settings u).toNat = k + 1 :=
    ⟨(get_history_limit db.settings u).toNat - 1, by omega⟩
  simp only [get_history, takeLimit,
    if_neg (by omega : ¬ get_history_limit db.settings u < 0)] at hold
  simp only [get_history, add_message_to_history, takeLimit]
  rw [if_neg (by omega : ¬ get_history_limit db.settings u < 0)]
  rw [List.filter_append]
  rw [show ([⟨db.nextId, u, role, encVal (Json.arr parts), ts⟩] : List Row).filter
      (fun r => r.user == u) = [⟨db.nextId, u, role, encVal (Json.arr parts), ts⟩]
    from by simp]
  rw [sortDescTs_append_newest _ _ (by
    intro x hx
    rw [List.mem_filter] at hx
    exact hnew x hx.1 (by simpa using hx.2))]
  rw [hk, List.take_succ_cons, List.reverse_cons, parseRows_append]
  have hpre : parseRows
      (((sortDescTs (db.history.filter fun r => r.user == u)).take k).reverse) =
      some (es.drop (es.length + 1 - (k + 1))) := by
    rw [hk] at hold
    have hlen : es.length =
        ((sortDescTs (db.history.filter fun r => r.user == u)).take (k + 1)).length := by
      have hl := parseRows_length _ _ hold
      rw [List.length_reverse] at hl
      exact hl
    have htk : (sortDescTs (db.history.filter fun r => r.user == u)).take k =
        ((sortDescTs (db.history.filter fun r => r.user == u)).take (k + 1)).take k := by
      rw [List.take_take]
      congr 1
      omega
    have hidx : ((sortDescTs (db.history.filter fun r => r.user == u)).take (k + 1)).length - k
        = es.length + 1 - (k + 1) := by omega
    rw [htk, take_reverse_eq_drop, hidx]
    exact parseRows_drop _ _ hold (es.length + 1 - (k + 1))
  rw [hpre]
  rw [parseRows_cons_some _ _ (Json.arr parts) (loads_encVal _)]
  rw [show parseRows [] = some [] from rfl]
  rfl

/-- Witness for C10: appending to a one-turn store under the default limit
appends the round-tripped entry at the end of the window. -/
theorem append_read_roundtrip_witness :
    loads (encVal (Json.arr (textParts "next"))) = some (Json.arr (textParts "next")) ∧
    get_history (add_message_to_history 4 3 "model" (textParts "next")
        (add_message_to_history 1 3 "user" (textParts "old") ⟨[], 0, []⟩)) 3 =
      some (([(("user", Json.arr (textParts "old")))] : List Entry).drop
          (1 + 1 - (get_history_limit ([] : List (Int × Int)) 3).toNat)
        ++ ([(("model", Json.arr (textParts "next")))] : List Entry)) :=
  append_read_roundtrip
    (add_message_to_history 1 3 "user" (textParts "old") ⟨[], 0, []⟩)
    3 "model" (textParts "next") 4 [("user", Json.arr (textParts "old"))]
    (by decide) (by decide) (by decide)
